import Mathlib

/-!
# Verification of the Planner_Bot natural-language reminder parser

Shallow embedding of `src/parser.py` (temporal resolver and reminder
segmenter) of the Planner_Bot repository, together with proofs of the
spec claims C1..C10.

Modelling conventions:

* Python strings are embedded as `List Char` (`Str`).  The repository
  processes Russian text; whitespace and word-character classes are
  modelled on the ASCII + Cyrillic fragment the code actually receives.
* Python `datetime` values in the fixed `Europe/Moscow` timezone are
  embedded as civil timestamps `DT` (year/month/day/hour/minute/second).
  Moscow has a fixed UTC offset (no DST transitions in the relevant
  range), so comparison of `pytz`-aware datetimes coincides with
  lexicographic comparison of the civil fields, and `+ timedelta(days=1)`
  is civil next-day.  All `datetime` values produced by the code have
  `microsecond = 0`, so second precision is exact for every comparison
  the code performs, `now` included.
* Each regular expression of the source is embedded as a hand-written
  backtracking matcher that mirrors the pattern (greedy quantifiers,
  alternation order, word boundaries, leftmost match) — the pattern is
  quoted in the comment next to each matcher.
* The only effectful operations (the OpenAI chat call, JSON decoding of
  its response and dictionary access on the decoded value) are injected
  as an explicit outcome value; a raised exception travels as the
  `exn` constructor and is caught at the same boundary where the source
  has its `try/except`.
* `now` is passed explicitly; the source calls `_now_moscow()` at several
  points during one resolution, all within the same request.
-/

namespace PlannerBot

/-- Python strings, embedded as lists of characters. -/
abbrev Str := List Char

/-- Coerce a Lean string literal to the embedding type. -/
def S (s : String) : Str := s.toList

/-- The ASCII part of the Python regex class `\s` (the inputs the
repository handles contain no exotic Unicode whitespace). -/
def isPySpace (c : Char) : Bool :=
  c = ' ' || c = '\t' || c = '\n' || c = '\r' || c = '\x0b' || c = '\x0c'

/-- `str.lstrip` with an arbitrary character predicate. -/
def lstripBy (p : Char → Bool) (s : Str) : Str := s.dropWhile p

/-- `str.rstrip` with an arbitrary character predicate. -/
def rstripBy (p : Char → Bool) (s : Str) : Str := (s.reverse.dropWhile p).reverse

/-- `str.strip` with an arbitrary character predicate. -/
def stripBy (p : Char → Bool) (s : Str) : Str := rstripBy p (lstripBy p s)

/-- Python `str.strip()` (no arguments: strip whitespace). -/
def stripPy (s : Str) : Str := stripBy isPySpace s

/-- Python `str.strip(chars)`. -/
def stripSet (cs : Str) (s : Str) : Str := stripBy (fun c => cs.contains c) s

/-- Python `str.lower()` on the ASCII + Cyrillic letters used by the
repository (`A-Z`, `А-Я`, `Ё`). -/
def toLowerRu (c : Char) : Char :=
  if 'A' ≤ c && c ≤ 'Z' then Char.ofNat (c.toNat + 32)
  else if 'А' ≤ c && c ≤ 'Я' then Char.ofNat (c.toNat + 32)
  else if c = 'Ё' then 'ё'
  else c

/-- `str.lower()` on a whole string. -/
def lowerStr (s : Str) : Str := s.map toLowerRu

/-- The Python regex class `\w` on the ASCII + Cyrillic fragment:
ASCII alphanumerics, underscore, and the Cyrillic block U+0400–U+04FF. -/
def isWordChar (c : Char) : Bool :=
  c.isAlphanum || c = '_' || (0x400 ≤ c.toNat && c.toNat ≤ 0x4FF)

/-- Numeric value of a decimal digit character. -/
def digitVal (c : Char) : Nat := c.toNat - '0'.toNat

/-- Python `needle in haystack` (substring containment). -/
def containsSub (needle : Str) : Str → Bool
  | [] => needle.isEmpty
  | c :: rest => needle.isPrefixOf (c :: rest) || containsSub needle rest

theorem length_dropWhile_le {α : Type} (p : α → Bool) (l : List α) :
    (l.dropWhile p).length ≤ l.length := by
  induction l with
  | nil => simp [List.dropWhile]
  | cons c rest ih =>
    by_cases h : p c = true
    · simpa [List.dropWhile, h] using Nat.le_trans ih (Nat.le_succ _)
    · simp [List.dropWhile, h]

/-- Helper for `collapseWS`: `inRun` records whether the previous
character belonged to the whitespace run being replaced. -/
def collapseWSAux : Bool → Str → Str
  | _, [] => []
  | inRun, c :: rest =>
    if isPySpace c then
      if inRun then collapseWSAux true rest else ' ' :: collapseWSAux true rest
    else c :: collapseWSAux false rest

/-- `re.sub(r"\s+", " ", t)`: replace every maximal whitespace run by a
single space. -/
def collapseWS (s : Str) : Str := collapseWSAux false s

/-- `t.replace("\r\n", "\n")`. -/
def replaceCRLF : Str → Str
  | '\r' :: '\n' :: rest => '\n' :: replaceCRLF rest
  | c :: rest => c :: replaceCRLF rest
  | [] => []

/-- `t.replace("\r", "\n")`. -/
def replaceCR (s : Str) : Str := s.map (fun c => if c = '\r' then '\n' else c)

/-- Python `str.split(sep)` for a one-character separator (keeps empty
pieces, exactly like Python). -/
def splitOnChar (sep : Char) : Str → List Str
  | [] => [[]]
  | c :: rest =>
    match splitOnChar sep rest with
    | [] => if c = sep then [[], [c]] else [[c]]
    | h :: t => if c = sep then [] :: h :: t else (c :: h) :: t

/-- Decimal digits of a natural number. -/
def natChars (n : Nat) : Str := Nat.toDigits 10 n

/-- The decimal digit character for `n ≤ 9`. -/
def digitChar (n : Nat) : Char := Char.ofNat ('0'.toNat + n)

/-- Zero-padded two-digit rendering (`%02d`; values ≥ 100 print all
their digits, as in Python). -/
def pad2 (n : Nat) : Str :=
  if n < 100 then [digitChar (n / 10), digitChar (n % 10)] else natChars n

/-- Zero-padded four-digit rendering (`%Y`; `datetime` years are ≤ 9999). -/
def pad4 (n : Nat) : Str :=
  if n < 10000 then
    [digitChar (n / 1000), digitChar (n / 100 % 10),
     digitChar (n / 10 % 10), digitChar (n % 10)]
  else natChars n

/-! ## Civil timestamps (`datetime` in the fixed Moscow timezone) -/

/-- A civil timestamp: the embedding of a Moscow-aware `datetime`
(second precision; every value the code builds has `microsecond = 0`). -/
structure DT where
  y : Nat
  mo : Nat
  d : Nat
  hh : Nat
  mi : Nat
  s : Nat
deriving DecidableEq, Repr

/-- Seconds since midnight. -/
def DT.timeKey (t : DT) : Nat := (t.hh * 60 + t.mi) * 60 + t.s

/-- A date key that is strictly monotone in lexicographic (y, mo, d)
order for calendar-plausible fields (`mo < 13`, `d < 32`). -/
def DT.dateKey (t : DT) : Nat := (t.y * 13 + t.mo) * 32 + t.d

/-- A linear key realizing the `datetime` comparison order: with the
fixed Moscow offset, aware-datetime comparison is civil lexicographic
comparison, which `key` reflects faithfully on valid values. -/
def DT.key (t : DT) : Nat := t.dateKey * 86400 + t.timeKey

/-- Gregorian leap year (as in Python `datetime`). -/
def isLeap (y : Nat) : Bool := y % 4 = 0 && (y % 100 ≠ 0 || y % 400 = 0)

/-- Length of a month (as validated by the `datetime` constructor). -/
def daysInMonth (y mo : Nat) : Nat :=
  if mo = 2 then (if isLeap y then 29 else 28)
  else if mo = 4 || mo = 6 || mo = 9 || mo = 11 then 30
  else 31

/-- The validity check performed by the Python `datetime` constructor. -/
def validYMD (y mo d : Nat) : Bool :=
  1 ≤ y && y ≤ 9999 && 1 ≤ mo && mo ≤ 12 && 1 ≤ d && d ≤ daysInMonth y mo

/-- Calendar-valid civil timestamp. -/
def DT.valid (t : DT) : Bool :=
  validYMD t.y t.mo t.d && t.hh ≤ 23 && t.mi ≤ 59 && t.s ≤ 59

/-- The day after (civil), as `datetime + timedelta(days=1)` computes it. -/
def DT.nextDay (t : DT) : DT :=
  if t.d < daysInMonth t.y t.mo then { t with d := t.d + 1 }
  else if t.mo < 12 then { t with mo := t.mo + 1, d := 1 }
  else { t with y := t.y + 1, mo := 1, d := 1 }

/-- `datetime + timedelta(days=k)`. -/
def DT.addDays : Nat → DT → DT
  | 0, t => t
  | Nat.succ k, t => DT.addDays k t.nextDay

/-- `dt.replace(hour=hh, minute=mi, second=0, microsecond=0)`. -/
def DT.atTime (t : DT) (hh mi : Nat) : DT := { t with hh := hh, mi := mi, s := 0 }

/-- `dt.strftime("%Y-%m-%d %H:%M:%S")`. -/
def fmtDT (t : DT) : Str :=
  pad4 t.y ++ ['-'] ++ pad2 t.mo ++ ['-'] ++ pad2 t.d ++ [' '] ++
  pad2 t.hh ++ [':'] ++ pad2 t.mi ++ [':'] ++ pad2 t.s

/-- The pattern `if dt <= now: dt = dt + timedelta(days=1)` that every
local recognizer applies after building its candidate instant. -/
def futureCorrect (now dt : DT) : DT :=
  if dt.key ≤ now.key then dt.addDays 1 else dt

/-! ## Regex scanning infrastructure

A matcher `m prev rest` attempts a match at the current position, where
`prev` is the character just before the position (`none` at the string
start) — this is what the word-boundary assertion `\b` needs.  It
returns `some (len, data)` for a match consuming `len` characters.
`searchStr` mirrors `re.search` (leftmost match, with its start index);
`scanAllFrom` mirrors `re.finditer`/`re.findall` (non-overlapping,
left to right); `subAll` mirrors `re.sub` with a constant replacement. -/

def wordOpt : Option Char → Bool
  | none => false
  | some c => isWordChar c

/-- The `\b` assertion between `prev` and the head of the rest. -/
def atBoundary (p : Option Char) (l : Str) : Bool :=
  wordOpt p != (match l with | [] => false | c :: _ => isWordChar c)

/-- `\b` at a position known to follow a word character (all our matches
end in a digit or a letter). -/
def endB : Str → Bool
  | [] => true
  | c :: _ => !isWordChar c

def scanFrom (m : Option Char → Str → Option (Nat × α)) (p : Option Char) (i : Nat) :
    Str → Option (Nat × Nat × α)
  | [] =>
    match m p [] with
    | some (len, a) => some (i, len, a)
    | none => none
  | c :: rest =>
    match m p (c :: rest) with
    | some (len, a) => some (i, len, a)
    | none => scanFrom m (some c) (i + 1) rest

/-- `re.search`: leftmost match as `(start, len, data)`. -/
def searchStr (m : Option Char → Str → Option (Nat × α)) (t : Str) :
    Option (Nat × Nat × α) :=
  scanFrom m none 0 t

/-- Fuelled scanning loop of `re.finditer`.  The fuel starts at the
length of the scanned string; every recursive call consumes at least
one character, so the fuel never runs out before the string does (the
`0, c :: rest` case is unreachable from `findAllStr`). -/
def scanAllFrom (m : Option Char → Str → Option (Nat × α)) :
    Nat → Option Char → Nat → Str → List (Nat × Nat × α)
  | 0, _, _, _ => []
  | Nat.succ _, _, _, [] => []
  | Nat.succ fuel, p, i, c :: rest =>
    match m p (c :: rest) with
    | none => scanAllFrom m fuel (some c) (i + 1) rest
    | some (len, a) =>
      if len = 0 then (i, 0, a) :: scanAllFrom m fuel (some c) (i + 1) rest
      else (i, len, a) ::
        scanAllFrom m fuel ((c :: rest)[len - 1]?) (i + len) ((c :: rest).drop len)

/-- `re.finditer` / `re.findall`: all non-overlapping matches. -/
def findAllStr (m : Option Char → Str → Option (Nat × α)) (t : Str) :
    List (Nat × Nat × α) :=
  scanAllFrom m t.length none 0 t

/-- Fuelled replacement loop of `re.sub` (same fuel discipline as
`scanAllFrom`). -/
def subAllFrom (m : Option Char → Str → Option (Nat × α)) (repl : Str) :
    Nat → Option Char → Str → Str
  | 0, _, l => l
  | Nat.succ _, _, [] => []
  | Nat.succ fuel, p, c :: rest =>
    match m p (c :: rest) with
    | none => c :: subAllFrom m repl fuel (some c) rest
    | some (len, _) =>
      if len = 0 then c :: subAllFrom m repl fuel (some c) rest
      else repl ++ subAllFrom m repl fuel ((c :: rest)[len - 1]?) ((c :: rest).drop len)

/-- `re.sub(pattern, repl, t)` for a constant replacement string. -/
def subAll (m : Option Char → Str → Option (Nat × α)) (repl : Str) (t : Str) : Str :=
  subAllFrom m repl t.length none t

/-! ### Building blocks for the individual patterns -/

/-- Greedy `\d{1,2}`: candidate `(value, rest)` pairs, two digits first. -/
def digits2or1 : Str → List (Nat × Str)
  | a :: b :: rest =>
    if a.isDigit && b.isDigit then
      [(digitVal a * 10 + digitVal b, rest), (digitVal a, b :: rest)]
    else if a.isDigit then [(digitVal a, b :: rest)]
    else []
  | [a] => if a.isDigit then [(digitVal a, [])] else []
  | [] => []

/-- Exactly `\d{2}`. -/
def digits2 : Str → Option (Nat × Str)
  | a :: b :: rest =>
    if a.isDigit && b.isDigit then some (digitVal a * 10 + digitVal b, rest) else none
  | _ => none

/-- Greedy `\d{2,4}`: candidates with four, then three, then two digits. -/
def digits4to2 (l : Str) : List (Nat × Str) :=
  [4, 3, 2].filterMap fun k =>
    let ds := l.take k
    if ds.length = k && ds.all Char.isDigit then
      some (ds.foldl (fun acc c => acc * 10 + digitVal c) 0, l.drop k)
    else none

/-- Greedy `C*` for a character class: candidate rests, longest first. -/
def classStar (p : Char → Bool) (l : Str) : List Str :=
  let run := (l.takeWhile p).length
  (List.range (run + 1)).reverse.map fun k => l.drop k

/-- Greedy `C+` for a character class: candidate rests, longest first. -/
def classPlus (p : Char → Bool) (l : Str) : List Str :=
  let run := (l.takeWhile p).length
  (List.range (run + 1)).reverse.filterMap fun k =>
    if 1 ≤ k then some (l.drop k) else none

/-- Case-insensitive literal word (the pattern word is given lowercase),
mirroring `re.IGNORECASE` over `toLowerRu`. -/
def litCI (w l : Str) : Option Str :=
  if lowerStr (l.take w.length) = w then some (l.drop w.length) else none

def dateSep (c : Char) : Bool := c = '.' || c = '/' || c = '-'

def spaceComma (c : Char) : Bool := isPySpace c || c = ','

/-! ### The individual patterns of `parser.py` -/

/-- Core of `\d{1,2}[:.]\d{2}\b` (no leading boundary): `(len, hh, mm)`. -/
def timeCore (l : Str) : Option (Nat × Nat × Nat) :=
  (digits2or1 l).findSome? fun hr =>
    match hr.2 with
    | c :: r2 =>
      if c = ':' || c = '.' then
        match digits2 r2 with
        | some (mm, r3) =>
          if endB r3 then some (l.length - r3.length, hr.1, mm) else none
        | none => none
      else none
    | [] => none

/-- `re.search(r"\b(\d{1,2})[:.](\d{2})\b", t)` — the explicit-time
pattern of `_try_parse_explicit_time` (also the guard regex of
`_try_parse_relative_day_only`). -/
def timeHHMMAt (p : Option Char) (l : Str) : Option (Nat × Nat × Nat) :=
  if atBoundary p l then timeCore l else none

/-- Core of `\d{1,2}[-./]\d{1,2}(?:[-./]\d{2,4})?\b` (no leading
boundary), returning the consumed length. -/
def dateTokenCore (l : Str) : Option Nat :=
  (digits2or1 l).findSome? fun d1 =>
    match d1.2 with
    | c :: r2 =>
      if dateSep c then
        (digits2or1 r2).findSome? fun d2 =>
          let withYear : Option Str :=
            match d2.2 with
            | c2 :: r3 =>
              if dateSep c2 then
                (digits4to2 r3).findSome? fun yr =>
                  if endB yr.2 then some yr.2 else none
              else none
            | [] => none
          match withYear with
          | some rEnd => some (l.length - rEnd.length)
          | none => if endB d2.2 then some (l.length - d2.2.length) else none
      else none
    | [] => none

/-- `_DATE_TOKEN_RE = r"\b\d{1,2}[-./]\d{1,2}(?:[-./]\d{2,4})?\b"`. -/
def dateTokenAt (p : Option Char) (l : Str) : Option (Nat × Unit) :=
  if atBoundary p l then (dateTokenCore l).map (fun n => (n, ())) else none

/-- `\b\d{1,2}[-./]\d{1,2}\b` (no optional year) — the bare day-month
guard used by `_try_parse_relative_day_only` and
`_is_day_month_pattern`. -/
def dayMonthAt (p : Option Char) (l : Str) : Option (Nat × Unit) :=
  if atBoundary p l then
    (digits2or1 l).findSome? fun d1 =>
      match d1.2 with
      | c :: r2 =>
        if dateSep c then
          (digits2or1 r2).findSome? fun d2 =>
            if endB d2.2 then some (l.length - d2.2.length, ()) else none
        else none
      | [] => none
  else none

/-- Candidate rests for `(?:\s*(?:года?|г\.)\s*)?` of the explicit
date+time pattern (group tried first, in regex backtracking order,
then skipped). -/
def yearWordPart (l : Str) : List Str :=
  ((classStar isPySpace l).flatMap fun r1 =>
    (([S "года", S "год", S "г."]).filterMap fun w => litCI w r1).flatMap fun r2 =>
      classStar isPySpace r2) ++ [l]

/-- `_EXPLICIT_DT_RE` (flags `(?ix)`):

    \b (?P<day>\d{1,2})[-./](?P<month>\d{1,2})
    (?:[-./](?P<year>\d{2,4}))?  (?:\s*(?:года?|г\.)\s*)?
    [\s,]+ (?:в|во)?\s* (?P<hour>\d{1,2})[:.](?P<minute>\d{2}) \b

Returns `(len, day, month, year?, hour, minute)`. -/
def explicitDTAt (p : Option Char) (l : Str) :
    Option (Nat × Nat × Nat × Option Nat × Nat × Nat) :=
  if atBoundary p l then
    (digits2or1 l).findSome? fun d1 =>
      match d1.2 with
      | c1 :: r2 =>
        if dateSep c1 then
          (digits2or1 r2).findSome? fun mo1 =>
            let yearCands : List (Option Nat × Str) :=
              (match mo1.2 with
               | c2 :: r4 =>
                 if dateSep c2 then (digits4to2 r4).map (fun yr => (some yr.1, yr.2))
                 else []
               | [] => []) ++ [(none, mo1.2)]
            yearCands.findSome? fun yc =>
              (yearWordPart yc.2).findSome? fun r6 =>
                (classPlus spaceComma r6).findSome? fun r7 =>
                  ((([S "в", S "во"]).filterMap fun w => litCI w r7) ++ [r7]).findSome? fun r8 =>
                    (classStar isPySpace r8).findSome? fun r9 =>
                      (digits2or1 r9).findSome? fun h1 =>
                        match h1.2 with
                        | c3 :: r11 =>
                          if c3 = ':' || c3 = '.' then
                            match digits2 r11 with
                            | some (mm, r12) =>
                              if endB r12 then
                                some (l.length - r12.length,
                                      d1.1, mo1.1, yc.1, h1.1, mm)
                              else none
                            | none => none
                          else none
                        | [] => none
        else none
      | [] => none
  else none

/-- `re.search(r"\bв?\s*(\d{1,2})\s+(\d{2})\b", tl)` — the
space-separated time pattern of `_try_parse_space_time`. -/
def spaceTimeAt (p : Option Char) (l : Str) : Option (Nat × Nat × Nat) :=
  if atBoundary p l then
    ((match litCI (S "в") l with | some r => [r] | none => []) ++ [l]).findSome? fun r1 =>
      (classStar isPySpace r1).findSome? fun r2 =>
        (digits2or1 r2).findSome? fun h1 =>
          (classPlus isPySpace h1.2).findSome? fun r4 =>
            match digits2 r4 with
            | some (mm, r5) =>
              if endB r5 then some (l.length - r5.length, h1.1, mm) else none
            | none => none
  else none

/-- Word-alternation pattern `\b(w1|w2|...)\b` with `re.IGNORECASE`
(alternatives in source order; a character class such as `дн[её]м` is
expanded into its instances). -/
def wordAltAt (words : List Str) (p : Option Char) (l : Str) : Option (Nat × Unit) :=
  if atBoundary p l then
    words.findSome? fun w =>
      match litCI w l with
      | some r => if endB r then some (w.length, ()) else none
      | none => none
  else none

/-- `_DAYPART_WORDS_RE = r"\b(утром|утра|дн[её]м|днем|вечером|вечера|ночью)\b"`. -/
def dayPartWords : List Str :=
  [S "утром", S "утра", S "днём", S "днем", S "вечером", S "вечера", S "ночью"]

/-- `r"\b(вечером|вечера|ночью)\b"` — the evening/night PM trigger. -/
def eveningWords : List Str := [S "вечером", S "вечера", S "ночью"]

/-- `re.search(r"\b(вечером|вечера|ночью)\b", tl)` as a Boolean. -/
def hasEveningWord (tl : Str) : Bool :=
  (searchStr (wordAltAt eveningWords) tl).isSome

/-- `re.sub(r"\bв\s*\d{1,2}[:.]\d{2}\b", "", t)` — the task cleanup of
`_try_parse_explicit_time`. -/
def vTimeAt (p : Option Char) (l : Str) : Option (Nat × Unit) :=
  if atBoundary p l then
    match litCI (S "в") l with
    | some r1 =>
      (classStar isPySpace r1).findSome? fun r2 =>
        (digits2or1 r2).findSome? fun h1 =>
          match h1.2 with
          | c :: r4 =>
            if c = ':' || c = '.' then
              match digits2 r4 with
              | some (_, r5) =>
                if endB r5 then some (l.length - r5.length, ()) else none
              | none => none
            else none
          | [] => none
    | none => none
  else none

/-- `_HOUR_WORDS`, as the association list of the source. -/
def hourWordsMap : List (Str × Nat) :=
  [(S "один", 1), (S "одна", 1), (S "два", 2), (S "две", 2), (S "три", 3),
   (S "четыре", 4), (S "пять", 5), (S "шесть", 6), (S "семь", 7),
   (S "восемь", 8), (S "девять", 9), (S "десять", 10),
   (S "одиннадцать", 11), (S "двенадцать", 12)]

/-- `_MINUTE_WORDS`. -/
def minuteWordsMap : List (Str × Nat) :=
  [(S "ноль", 0), (S "пять", 5), (S "десять", 10), (S "пятнадцать", 15),
   (S "двадцать", 20), (S "двадцать пять", 25), (S "тридцать", 30),
   (S "сорок", 40), (S "сорок пять", 45), (S "пятьдесят", 50),
   (S "пятьдесят пять", 55)]

/-- Python `dict.get(k)` on a string-keyed association list. -/
def pyLookup (m : List (Str × Nat)) (k : Str) : Option Nat :=
  (m.find? fun p => p.1 = k).map Prod.snd

/-- Hour alternatives of `_SPOKEN_TIME_RE`, in the source alternation
order. -/
def spokenHourAlts : List Str :=
  [S "одиннадцать", S "двенадцать", S "десять", S "девять", S "восемь",
   S "семь", S "шесть", S "пять", S "четыре", S "три", S "два", S "две",
   S "один", S "одна"]

/-- Minute alternatives of `_SPOKEN_TIME_RE`, in the source alternation
order; each is the word sequence (joined by `\s+` in the pattern)
together with the single-space canonical string the source obtains via
`re.sub(r"\s+", " ", minute_word)` before the dictionary lookup. -/
def spokenMinuteAlts : List (List Str × Str) :=
  [([S "ноль", S "пять"], S "ноль пять"),
   ([S "ноль", S "десять"], S "ноль десять"),
   ([S "ноль", S "пятнадцать"], S "ноль пятнадцать"),
   ([S "двадцать", S "пять"], S "двадцать пять"),
   ([S "сорок", S "пять"], S "сорок пять"),
   ([S "пятьдесят", S "пять"], S "пятьдесят пять"),
   ([S "пятнадцать"], S "пятнадцать"),
   ([S "двадцать"], S "двадцать"),
   ([S "тридцать"], S "тридцать"),
   ([S "сорок"], S "сорок"),
   ([S "пятьдесят"], S "пятьдесят"),
   ([S "пять"], S "пять"),
   ([S "десять"], S "десять")]

/-- Match a sequence of literal words joined by `\s+`, returning the
candidate rests (backtracking over each whitespace run). -/
def matchWordSeq : List Str → Str → List Str
  | [], l => [l]
  | w :: ws, l =>
    match litCI w l with
    | none => []
    | some r =>
      match ws with
      | [] => [r]
      | _ => (classPlus isPySpace r).flatMap (matchWordSeq ws)

/-- `_SPOKEN_TIME_RE` (flags `(?ix)`):

    \bв\s+ (?P<hour>одиннадцать|...|одна)
    (?:\s+ (?P<minute> ноль\s+пять|...|десять))? \b

Returns `(len, hour word, canonical minute word if present)`. -/
def spokenTimeAt (p : Option Char) (l : Str) :
    Option (Nat × Str × Option Str) :=
  if atBoundary p l then
    match litCI (S "в") l with
    | none => none
    | some r1 =>
      (classPlus isPySpace r1).findSome? fun r2 =>
        spokenHourAlts.findSome? fun hw =>
          match litCI hw r2 with
          | none => none
          | some r3 =>
            let withMin : Option (Nat × Str × Option Str) :=
              (classPlus isPySpace r3).findSome? fun r4 =>
                spokenMinuteAlts.findSome? fun ma =>
                  (matchWordSeq ma.1 r4).findSome? fun r5 =>
                    if endB r5 then some (l.length - r5.length, hw, some ma.2)
                    else none
            match withMin with
            | some res => some res
            | none =>
              if endB r3 then some (l.length - r3.length, hw, none) else none
  else none

/-- Month-name prefixes of `_is_day_month_pattern`, in source order. -/
def monthNameAlts : List Str :=
  [S "январ", S "феврал", S "март", S "апрел", S "ма", S "июн", S "июл",
   S "август", S "сентябр", S "октябр", S "ноябр", S "декабр"]

/-- `r"\b\d{1,2}\s+(январ|феврал|март|апрел|ма|июн|июл|август|сентябр|октябр|ноябр|декабр)"`
(no trailing boundary — the alternatives are stem prefixes). -/
def dayMonthNameAt (p : Option Char) (l : Str) : Option (Nat × Unit) :=
  if atBoundary p l then
    (digits2or1 l).findSome? fun d1 =>
      (classPlus isPySpace d1.2).findSome? fun r2 =>
        monthNameAlts.findSome? fun w =>
          (litCI w r2).map fun r3 => (l.length - r3.length, ())
  else none

/-! ### The segmenter anchor pattern

`anchor_next` of `_simple_split_lines` (flags `re.IGNORECASE |
re.VERBOSE`), alternatives in source order:

    (?: <explicit date+time anchor>
      | через\b | сегодня\b | завтра\b | послезавтра\b
      | утром\b | утра\b | дн[её]м\b | днем\b | вечером\b | вечера\b
      | \d{1,2}[-./]\d{1,2}(?:[-./]\d{2,4})?\b
      | \d{1,2}[:.]\d{2}\b )

Only the explicit date+time alternative carries a leading `\b`; the
word/date/time alternatives do not. -/

def anchorWordAlts : List Str :=
  [S "через", S "сегодня", S "завтра", S "послезавтра", S "утром",
   S "утра", S "днём", S "днем", S "вечером", S "вечера"]

def anchorAt (p : Option Char) (l : Str) : Option (Nat × Unit) :=
  match explicitDTAt p l with
  | some (len, _) => some (len, ())
  | none =>
    match anchorWordAlts.findSome? (fun w =>
        match litCI w l with
        | some r => if endB r then some (l.length - r.length) else none
        | none => none) with
    | some len => some (len, ())
    | none =>
      match dateTokenCore l with
      | some len => some (len, ())
      | none =>
        match timeCore l with
        | some (len, _, _) => some (len, ())
        | none => none

/-- `re.findall(anchor_next, t, ...)` — the anchors of one utterance. -/
def findAnchors (t : Str) : List (Nat × Nat × Unit) := findAllStr anchorAt t

/-- `re.sub(rf"[.!?]\s*(?={anchor_next})", "\n", t)`: a sentence
terminator, its following whitespace, directly followed by an anchor. -/
def punctAnchorAt (_p : Option Char) (l : Str) : Option (Nat × Unit) :=
  match l with
  | c :: rest =>
    if c = '.' || c = '!' || c = '?' then
      (classStar isPySpace rest).findSome? fun r2 =>
        let prev : Option Char := if r2.length = rest.length then some c else some ' '
        if (anchorAt prev r2).isSome then some (l.length - r2.length, ()) else none
    else none
  | [] => none

/-- `re.sub(rf",\s*(?={anchor_next})", "\n", t2)`. -/
def commaAnchorAt (_p : Option Char) (l : Str) : Option (Nat × Unit) :=
  match l with
  | c :: rest =>
    if c = ',' then
      (classStar isPySpace rest).findSome? fun r2 =>
        let prev : Option Char := if r2.length = rest.length then some c else some ' '
        if (anchorAt prev r2).isSome then some (l.length - r2.length, ()) else none
    else none
  | [] => none

/-- `re.sub(rf"\s+(?:и|а)\s+(?={anchor_next})", "\n", t2)`. -/
def connAnchorAt (_p : Option Char) (l : Str) : Option (Nat × Unit) :=
  (classPlus isPySpace l).findSome? fun r1 =>
    ([S "и", S "а"].filterMap fun w => litCI w r1).findSome? fun r2 =>
      (classPlus isPySpace r2).findSome? fun r3 =>
        if (anchorAt (some ' ') r3).isSome then some (l.length - r3.length, ())
        else none

/-- `re.sub(rf"\s+(?:а\s+потом|потом|затем)\s+(?={anchor_next})", "\n", t2)`. -/
def potomAnchorAt (_p : Option Char) (l : Str) : Option (Nat × Unit) :=
  (classPlus isPySpace l).findSome? fun r1 =>
    ([[S "а", S "потом"], [S "потом"], [S "затем"]].findSome? fun ws =>
      (matchWordSeq ws r1).findSome? fun r2 =>
        (classPlus isPySpace r2).findSome? fun r3 =>
          if (anchorAt (some ' ') r3).isSome then some (l.length - r3.length, ())
          else none)

/-! ## The helper functions of `parser.py` -/

/-- The character set of `t.strip(" .,!?:;—-")` in `_clean_task`. -/
def cleanChars : Str := [' ', '.', ',', '!', '?', ':', ';', '—', '-']

/-- `_clean_task`. -/
def clean_task (text : Str) : Str :=
  stripSet cleanChars (collapseWS (stripPy text))

/-- Full match of `r"\d{2}:\d{2}"` (first form of `_normalize_hhmm`). -/
def matchHHcolonMM (v : Str) : Option (Nat × Nat) :=
  match v with
  | [a, b, c, d, e] =>
    if a.isDigit && b.isDigit && c = ':' && d.isDigit && e.isDigit then
      some (digitVal a * 10 + digitVal b, digitVal d * 10 + digitVal e)
    else none
  | _ => none

/-- Full match of `r"(\d{1,2})[:.](\d{2})"` (second form of
`_normalize_hhmm`). -/
def matchH1or2sepMM (v : Str) : Option (Nat × Nat) :=
  match v with
  | [a, c, d, e] =>
    if a.isDigit && (c = ':' || c = '.') && d.isDigit && e.isDigit then
      some (digitVal a, digitVal d * 10 + digitVal e)
    else none
  | [a, b, c, d, e] =>
    if a.isDigit && b.isDigit && (c = ':' || c = '.') && d.isDigit && e.isDigit then
      some (digitVal a * 10 + digitVal b, digitVal d * 10 + digitVal e)
    else none
  | _ => none

/-- `_normalize_hhmm(value, fallback)`. -/
def normalize_hhmm (value fb : Str) : Str :=
  if value.isEmpty then fb
  else
    let v := stripPy value
    match matchHHcolonMM v with
    | some (hh, mm) => if hh ≤ 23 && mm ≤ 59 then v else fb
    | none =>
      match matchH1or2sepMM v with
      | some (hh, mm) =>
        if hh ≤ 23 && mm ≤ 59 then pad2 hh ++ [':'] ++ pad2 mm else fb
      | none => fb

/-- The normalized day-part settings (the dict `_get_times` returns).
The field for the key `"default"` is called `dflt`. -/
structure Times where
  morning : Str
  day : Str
  evening : Str
  dflt : Str
deriving DecidableEq, Repr

/-- Python `dict.get(k)` on a string-valued mapping.  Settings values
are modelled as the strings `str(value)` produces (`str()` is total, so
this loses no failure behaviour). -/
def pyGetStr (m : List (Str × Str)) (k : Str) : Option Str :=
  (m.find? fun p => p.1 = k).map Prod.snd

/-- `_get_times(user_times)`: both key conventions, defaults
`09:00 / 14:00 / 20:00 / 20:00`. -/
def get_times (user_times : Option (List (Str × Str))) : Times :=
  let ut := user_times.getD []
  let pick := fun (k1 k2 fb : Str) =>
    normalize_hhmm ((pyGetStr ut k1).getD ((pyGetStr ut k2).getD [])) fb
  { morning := pick (S "morning") (S "morning_time") (S "09:00"),
    day := pick (S "day") (S "day_time") (S "14:00"),
    evening := pick (S "evening") (S "evening_time") (S "20:00"),
    dflt := pick (S "default") (S "default_time") (S "20:00") }

/-- `int(s[:2]), int(s[3:])` on a `"HH:MM"` string (every call site
feeds it an output of `_get_times`, which C8 proves has this shape). -/
def hhmm_of (s : Str) : Nat × Nat :=
  match s with
  | [a, b, _, c, d] => (digitVal a * 10 + digitVal b, digitVal c * 10 + digitVal d)
  | _ => (0, 0)

/-- `_default_datetime_str` (kept as a civil timestamp; callers format
it with `fmtDT`): today at the default time, or tomorrow if that is not
strictly future. -/
def default_datetime (now : DT) (hhmm : Str) : DT :=
  let p := hhmm_of hhmm
  futureCorrect now (now.atTime p.1 p.2)

/-- `_is_day_month_pattern(user_text)`. -/
def is_day_month_pattern (user_text : Str) : Bool :=
  let t := lowerStr user_text
  (searchStr dayMonthNameAt t).isSome || (searchStr dayMonthAt t).isSome

/-- `_normalize_year_2or4`: 00-69 → 2000s, 70-99 → 1900s, missing year
→ current year.  (`int` of the matched digit string is its value, so
the value-level test `yy < 100` is faithful.) -/
def normalize_year_2or4 (nowY : Nat) (y : Option Nat) : Nat :=
  match y with
  | none => nowY
  | some yy => if yy < 100 then (if yy ≤ 69 then 2000 + yy else 1900 + yy) else yy

/-- `_looks_like_datetime_text` keyword list. -/
def looksLikeKeywords : List Str :=
  [S "сегодня", S "завтра", S "послезавтра", S "через",
   S "утром", S "утра", S "днём", S "днем", S "дня", S "вечером",
   S "вечера", S "ночью",
   S "понедельник", S "вторник", S "среда", S "четверг", S "пятница",
   S "суббота", S "воскресенье",
   S "пн", S "вт", S "ср", S "чт", S "пт", S "сб", S "вс",
   S "январ", S "феврал", S "март", S "апрел", S "мая", S "июн",
   S "июл", S "август", S "сентябр", S "октябр", S "ноябр", S "декабр",
   S "пол", S "полвосьм", S "половин"]

/-- `_looks_like_datetime_text(user_text)`. -/
def looks_like_datetime_text (user_text : Str) : Bool :=
  let t := lowerStr user_text
  t.any Char.isDigit || looksLikeKeywords.any fun k => containsSub k t

/-! ## `strptime(dt_str, "%Y-%m-%d %H:%M:%S")` -/

/-- Two-digit alternative of a `strptime` numeric component, followed by
a literal separator. -/
def comp2 (okTwo : Nat → Bool) (sep : Char) (l : Str) : Option (Nat × Str) :=
  match l with
  | a :: b :: c :: rest =>
    if a.isDigit && b.isDigit && okTwo (digitVal a * 10 + digitVal b) && c = sep then
      some (digitVal a * 10 + digitVal b, rest)
    else none
  | _ => none

/-- One-digit alternative of a `strptime` numeric component, followed by
a literal separator. -/
def comp1 (okOne : Nat → Bool) (sep : Char) (l : Str) : Option (Nat × Str) :=
  match l with
  | a :: c :: rest =>
    if a.isDigit && okOne (digitVal a) && c = sep then some (digitVal a, rest)
    else none
  | _ => none

/-- One `strptime` numeric component followed by a literal separator;
`okTwo`/`okOne` are the value sets of the two-digit and one-digit
alternatives of the CPython `_strptime` regex fragment (two digits
preferred, as in the regex alternation). -/
def compThenSep (okTwo okOne : Nat → Bool) (sep : Char) (l : Str) : Option (Nat × Str) :=
  comp2 okTwo sep l <|> comp1 okOne sep l

/-- The final `strptime` component (`%S`), which must end the string. -/
def compEnd (okTwo okOne : Nat → Bool) (l : Str) : Option Nat :=
  match l with
  | [a, b] =>
    if a.isDigit && b.isDigit && okTwo (digitVal a * 10 + digitVal b) then
      some (digitVal a * 10 + digitVal b)
    else none
  | [a] => if a.isDigit && okOne (digitVal a) then some (digitVal a) else none
  | _ => none

/-- `datetime.strptime(dt_str, "%Y-%m-%d %H:%M:%S")` followed by the
`datetime` constructor validation; `none` is the raised `ValueError`.
Component value sets follow CPython `_strptime`
(`%Y` = four digits, `%m` = `1[0-2]|0[1-9]|[1-9]`, etc.). -/
def parseYmdHms (s : Str) : Option DT :=
  match s with
  | a :: b :: c :: d :: '-' :: rest =>
    if a.isDigit && b.isDigit && c.isDigit && d.isDigit then
      let y := ((digitVal a * 10 + digitVal b) * 10 + digitVal c) * 10 + digitVal d
      match compThenSep (fun v => 1 ≤ v && v ≤ 12) (fun v => 1 ≤ v) '-' rest with
      | some (mo, r2) =>
        match compThenSep (fun v => 1 ≤ v && v ≤ 31) (fun v => 1 ≤ v) ' ' r2 with
        | some (dd, r3) =>
          match compThenSep (fun v => v ≤ 23) (fun _ => true) ':' r3 with
          | some (hh, r4) =>
            match compThenSep (fun v => v ≤ 59) (fun _ => true) ':' r4 with
            | some (mi, r5) =>
              match compEnd (fun v => v ≤ 59) (fun _ => true) r5 with
              | some ss =>
                if validYMD y mo dd then some ⟨y, mo, dd, hh, mi, ss⟩ else none
              | none => none
            | none => none
          | none => none
        | none => none
      | none => none
    else none
  | _ => none

/-- `_fix_past_datetime(dt_str, user_text, default_time_hhmm)`. -/
def fix_past_datetime (now : DT) (dt_str : Str) (user_text : Str) (dflt : Str) : Str :=
  match parseYmdHms dt_str with
  | none => fmtDT (default_datetime now dflt)
  | some dtv =>
    if now.key < dtv.key then dt_str
    else if is_day_month_pattern user_text then
      -- dt_msk.replace(year=dt_msk.year + 1) raises ValueError when the
      -- day does not exist in the new year (Feb 29) — caught by the source
      if validYMD (dtv.y + 1) dtv.mo dtv.d then
        let dt2 : DT := { dtv with y := dtv.y + 1 }
        if now.key < dt2.key then fmtDT dt2
        else fmtDT (default_datetime now dflt)
      else fmtDT (default_datetime now dflt)
    else fmtDT (default_datetime now dflt)

/-! ## The local recognizers of the temporal resolver -/

/-- `re.sub(r"\s+,", ",", t)` of `_try_parse_explicit_datetime`. -/
def spaceCommaAt (_p : Option Char) (l : Str) : Option (Nat × Unit) :=
  let run := (l.takeWhile isPySpace).length
  if 1 ≤ run && (l.drop run).head? = some ',' then some (run + 1, ()) else none

/-- `re.sub(r",\s+", ", ", t)` of `_try_parse_explicit_datetime`. -/
def commaSpaceAt (_p : Option Char) (l : Str) : Option (Nat × Unit) :=
  match l with
  | ',' :: r =>
    let run := (r.takeWhile isPySpace).length
    if 1 ≤ run then some (run + 1, ()) else none
  | _ => none

/-- `_try_parse_explicit_datetime(user_text)`, returning `(task, dt)`. -/
def try_parse_explicit_datetime (now : DT) (user_text : Str) : Option (Str × DT) :=
  let t := stripPy user_text
  match searchStr explicitDTAt t with
  | none => none
  | some (start, len, day, mon, yOpt, hh, mm) =>
    let year := normalize_year_2or4 now.y yOpt
    if 1 ≤ day && day ≤ 31 && 1 ≤ mon && mon ≤ 12 && hh ≤ 23 && mm ≤ 59 then
      -- MOSCOW_TZ.localize(datetime(year, month, day, hh, mm, 0)):
      -- the constructor raises (→ None) on an invalid calendar date
      if validYMD year mon day then
        let before := stripPy (t.take start)
        let after := stripPy (t.drop (start + len))
        let combined := stripPy (before ++ [' '] ++ after)
        let combined := collapseWS combined
        let combined := subAll spaceCommaAt [','] combined
        let combined := subAll commaSpaceAt [',', ' '] combined
        let combined := stripSet [' ', ','] combined
        let task := if combined.isEmpty then clean_task t else clean_task combined
        some (task, ⟨year, mon, day, hh, mm, 0⟩)
      else none
    else none

/-- The shared day-offset rule: `послезавтра` → +2 days, else `завтра`
→ +1 day, else today (substring tests on the lowercased text). -/
def dayOffsetBase (now : DT) (tl : Str) : DT :=
  if containsSub (S "послезавтра") tl then now.addDays 2
  else if containsSub (S "завтра") tl then now.addDays 1
  else now

/-- The two keyword-removal subs `(сегодня|завтра|послезавтра)` and the
day-part word lists used in task cleanup. -/
def relDayWords : List Str := [S "сегодня", S "завтра", S "послезавтра"]

/-- `\b(утром|утра|дн[её]м|днем|вечером|вечера)\b` (no `ночью`) — the
guard of `_try_parse_relative_day_only` and the cleanup list of
`_try_parse_simple_dayparts`. -/
def dayPartNoNight : List Str :=
  [S "утром", S "утра", S "днём", S "днем", S "вечером", S "вечера"]

/-- `_try_parse_explicit_time(user_text, default_time_hhmm)`.  The
`default_time_hhmm` parameter is accepted but, as in the source, not
used. -/
def try_parse_explicit_time (now : DT) (user_text : Str) (_dflt : Str) :
    Option (Str × DT) :=
  let t := stripPy user_text
  match searchStr timeHHMMAt t with
  | none => none
  | some (ms, mlen, hh, mm) =>
    -- the date-token guard: the time match must not overlap any
    -- _DATE_TOKEN_RE match
    if (findAllStr dateTokenAt t).any (fun dm =>
        !(ms + mlen ≤ dm.1 || dm.1 + dm.2.1 ≤ ms)) then none
    else if hh ≤ 23 && mm ≤ 59 then
      let tl := lowerStr t
      let base := dayOffsetBase now tl
      let hh2 := if hh < 12 && hasEveningWord tl then hh + 12 else hh
      let dt := futureCorrect now (base.atTime hh2 mm)
      let task1 := clean_task
        (subAll (wordAltAt dayPartWords) [] (subAll vTimeAt [] t))
      some ((if task1.isEmpty then clean_task t else task1), dt)
    else none

/-- `_try_parse_space_time(user_text)`. -/
def try_parse_space_time (now : DT) (user_text : Str) : Option (Str × DT) :=
  let t := stripPy user_text
  let tl := lowerStr t
  match searchStr spaceTimeAt tl with
  | none => none
  | some (ms, mlen, hh, mm) =>
    if hh ≤ 23 && mm ≤ 59 then
      let base := dayOffsetBase now tl
      let hh2 := if hh < 12 && hasEveningWord tl then hh + 12 else hh
      let dt := futureCorrect now (base.atTime hh2 mm)
      let task1 := clean_task (subAll (wordAltAt dayPartWords) []
        (stripPy (t.take ms ++ [' '] ++ t.drop (ms + mlen))))
      some ((if task1.isEmpty then clean_task t else task1), dt)
    else none

/-- `_try_parse_spoken_time(user_text)`. -/
def try_parse_spoken_time (now : DT) (user_text : Str) : Option (Str × DT) :=
  let t := stripPy user_text
  let tl := lowerStr t
  match searchStr spokenTimeAt tl with
  | none => none
  | some (ms, mlen, hw, mwOpt) =>
    match pyLookup hourWordsMap hw with
    | none => none
    | some hh =>
      match (match mwOpt with
             | none => some 0
             | some mw => pyLookup minuteWordsMap mw) with
      | none => none
      | some mm =>
        let base := dayOffsetBase now tl
        let hh2 := if hh < 12 && hasEveningWord tl then hh + 12 else hh
        let dt := futureCorrect now (base.atTime hh2 mm)
        let task1 := clean_task (subAll (wordAltAt dayPartWords) []
          (stripPy (t.take ms ++ [' '] ++ t.drop (ms + mlen))))
        some ((if task1.isEmpty then clean_task t else task1), dt)

/-- `_try_parse_simple_dayparts(user_text, times)`. -/
def try_parse_simple_dayparts (now : DT) (user_text : Str) (times : Times) :
    Option (Str × DT) :=
  let t := lowerStr user_text
  if t.any Char.isDigit then none
  else
    let base := dayOffsetBase now t
    let chosen : Option Str :=
      if containsSub (S "утром") t || containsSub (S "утра") t then
        some times.morning
      else if containsSub (S "днём") t || containsSub (S "днем") t then
        some times.day
      else if containsSub (S "вечером") t || containsSub (S "вечера") t then
        some times.evening
      else none
    match chosen with
    | none => none
    | some hhmm =>
      let p := hhmm_of hhmm
      let dt := futureCorrect now (base.atTime p.1 p.2)
      let task1 := clean_task (subAll (wordAltAt dayPartNoNight) []
        (subAll (wordAltAt relDayWords) [] user_text))
      some ((if task1.isEmpty then clean_task user_text else task1), dt)

/-- `_try_parse_relative_day_only(user_text, default_time_hhmm)`. -/
def try_parse_relative_day_only (now : DT) (user_text : Str) (dflt : Str) :
    Option (Str × DT) :=
  let t := stripPy user_text
  let tl := lowerStr t
  if !(containsSub (S "послезавтра") tl || containsSub (S "завтра") tl ||
       containsSub (S "сегодня") tl) then none
  else if (searchStr timeHHMMAt tl).isSome then none
  else if (searchStr dayMonthAt tl).isSome then none
  else if (searchStr (wordAltAt dayPartNoNight) tl).isSome then none
  else
    let base := dayOffsetBase now tl
    let p := hhmm_of dflt
    let dt := futureCorrect now (base.atTime p.1 p.2)
    let task1 := clean_task (subAll (wordAltAt relDayWords) [] t)
    some ((if task1.isEmpty then clean_task t else task1), dt)

/-! ## The resolver entry point `parse_text` -/

/-- A `parse_text` result dict: either
`{"task": ..., "datetime": ..., "original": ..., "error": None}` or
`{"error": ...}`. -/
inductive ParseResult where
  | ok (task : Str) (datetime : Str) (original : Str)
  | err (msg : Str)
deriving DecidableEq, Repr

/-- The outcome of the OpenAI call of `_parse_with_openai` after JSON
decoding: `exn` is any raised exception (transport error, `json.loads`
failure, attribute error on a non-dict); `dict` carries the fields
`task` / `datetime` / `original` via `.get` (absent and JSON `null`
both arrive as Python `None` = `none`; values are modelled after
`str()`-conversion, which is total). -/
inductive Remote where
  | exn (msg : Str)
  | dict (task : Option Str) (datetime : Option Str) (original : Option Str)

/-- Python truthiness of an optional string (`if not task`). -/
def truthyStr : Option Str → Bool
  | none => false
  | some s => !s.isEmpty

def apiKeyMissingMsg : Str := S "OPENAI_API_KEY не задан в .env"

def noTaskMsg : Str := S "Не удалось извлечь task из ответа модели."

/-- `_parse_with_openai(user_text, times)`: exceptions propagate to the
caller as `Except.error` (the function body has no `try`). -/
def parse_with_openai (now : DT) (apiKey : Bool) (remote : Remote)
    (user_text : Str) (times : Times) : Except Str ParseResult :=
  if !apiKey then .ok (.err apiKeyMissingMsg)
  else
    match remote with
    | .exn m => .error m
    | .dict taskF dtF origF =>
      if !truthyStr taskF then .ok (.err noTaskMsg)
      else
        let task := taskF.getD []
        let original := origF.getD user_text
        let dtStr : Str :=
          match dtF with
          | none => fmtDT (default_datetime now times.dflt)
          | some ds =>
            if lowerStr (stripPy ds) = S "null" then
              fmtDT (default_datetime now times.dflt)
            else fix_past_datetime now ds user_text times.dflt
        .ok (.ok task dtStr original)

/-- Steps 0–5 of the `parse_text` cascade (everything before the OpenAI
fallback), returning `(task, dt)` on a local match. -/
def localResolve (now : DT) (user_text : Str) (times : Times) :
    Option (Str × DT) :=
  match try_parse_explicit_datetime now user_text with
  | some r => some r
  | none =>
  match try_parse_explicit_time now user_text times.dflt with
  | some r => some r
  | none =>
  match try_parse_space_time now user_text with
  | some r => some r
  | none =>
  match try_parse_spoken_time now user_text with
  | some r => some r
  | none =>
  match try_parse_relative_day_only now user_text times.dflt with
  | some r => some r
  | none =>
  match try_parse_simple_dayparts now user_text times with
  | some r => some r
  | none =>
  if !looks_like_datetime_text user_text then
    some (clean_task user_text, default_datetime now times.dflt)
  else none

/-- `parse_text(user_text, user_times)`.  The outer `try/except` of the
source catches the exception channel of the OpenAI path and converts it
to `{"error": str(e)}`. -/
def parse_text (now : DT) (apiKey : Bool) (remote : Remote)
    (user_text : Str) (user_times : Option (List (Str × Str))) : ParseResult :=
  let times := get_times user_times
  match localResolve now user_text times with
  | some r => .ok r.1 (fmtDT r.2) user_text
  | none =>
    match parse_with_openai now apiKey remote user_text times with
    | .ok r => r
    | .error e => .err e

/-! ## The segmenter `_simple_split_lines` / `split_into_reminders` -/

/-- The leading-marker class of `re.sub(r"^[•\-–—\*\d\)\.]+\s*", "", line)`. -/
def isMarkerChar (c : Char) : Bool :=
  c = '•' || c = '-' || c = '–' || c = '—' || c = '*' || c.isDigit ||
  c = ')' || c = '.'

/-- `re.sub(r"^[•\-–—\*\d\)\.]+\s*", "", line)`: anchored at the start,
so at most one replacement. -/
def stripLineMarker (l : Str) : Str :=
  let r := l.dropWhile isMarkerChar
  if r.length = l.length then l else r.dropWhile isPySpace

/-- `re.sub(r"^(?:нужно|надо|пожалуйста)\s+", "", p, flags=re.IGNORECASE)`:
anchored prefix strip of filler words. -/
def stripFillerWord (l : Str) : Str :=
  match [S "нужно", S "надо", S "пожалуйста"].findSome? (fun w =>
      match litCI w l with
      | some r =>
        let r2 := r.dropWhile isPySpace
        if r2.length < r.length then some r2 else none
      | none => none) with
  | some r => r
  | none => l

/-- `_simple_split_lines(text)`. -/
def simple_split_lines (text : Str) : List Str :=
  let t0 := stripPy text
  if t0.isEmpty then []
  else
    -- normalization: CRLF/CR → LF, then collapse every whitespace run
    -- (including the just-produced "\n") to a single space
    let t := stripPy (collapseWS (replaceCR (replaceCRLF t0)))
    if containsSub ['\n'] t then
      -- `if "\n" in t:` — split on lines, strip bullet markers
      let parts := ((splitOnChar '\n' t).map
          (fun line => stripLineMarker (stripPy line))).filter
          (fun l => !l.isEmpty)
      if 2 ≤ parts.length then parts else [t]
    else if containsSub [';'] t then
      let parts := ((splitOnChar ';' t).map stripPy).filter (fun p => !p.isEmpty)
      if 2 ≤ parts.length then parts else [t]
    else if 2 ≤ (findAnchors t).length then
      let t2 := subAll punctAnchorAt ['\n'] t
      let t2 := subAll commaAnchorAt ['\n'] t2
      let t2 := subAll connAnchorAt ['\n'] t2
      let t2 := subAll potomAnchorAt ['\n'] t2
      let parts := ((splitOnChar '\n' t2).map
          (stripSet [' ', ','])).filter (fun p => !p.isEmpty)
      let cleaned := (parts.map (fun p => stripPy (stripFillerWord p))).filter
          (fun p => !p.isEmpty)
      if 2 ≤ cleaned.length then cleaned else [t]
    else [t]

/-- `split_into_reminders` result dict. -/
structure SegmentResult where
  items : List Str
  error : Option Str
deriving DecidableEq, Repr

/-- The outcome of the OpenAI splitting call after JSON decoding:
`exn` for any raised exception, `notList` when `data.get("items", [])`
is not a list, else the list of item strings. -/
inductive SplitRemote where
  | exn (msg : Str)
  | notList
  | items (l : List Str)

def badItemsMsg : Str := S "Неверный формат items"

/-- `split_into_reminders(text)`: local split first; the OpenAI
fallback is only reached when the local pass produced no items
(blank input); the `try/except` converts exceptions to
`{"items": [], "error": ...}`. -/
def split_into_reminders (text : Str) (apiKey : Bool) (remote : SplitRemote) :
    SegmentResult :=
  let items := simple_split_lines text
  if 2 ≤ items.length then ⟨items, none⟩
  else if items.length = 1 then ⟨items, none⟩
  else if !apiKey then ⟨[], some apiKeyMissingMsg⟩
  else
    match remote with
    | .exn m => ⟨[], some m⟩
    | .notList => ⟨[], some badItemsMsg⟩
    | .items l => ⟨(l.map stripPy).filter (fun x => !x.isEmpty), none⟩

/-! ## Arithmetic and calendar lemmas -/

theorem digitChar_isDigit {k : Nat} (h : k ≤ 9) : (digitChar k).isDigit = true := by
  interval_cases k <;> decide

theorem digitVal_digitChar {k : Nat} (h : k ≤ 9) : digitVal (digitChar k) = k := by
  interval_cases k <;> decide

theorem isDigit_toNat {c : Char} (h : c.isDigit = true) :
    48 ≤ c.toNat ∧ c.toNat ≤ 57 := by
  simp only [Char.isDigit, Bool.and_eq_true, decide_eq_true_eq] at h
  obtain ⟨h1, h2⟩ := h
  exact ⟨h1, h2⟩

theorem digitVal_le9 {c : Char} (h : c.isDigit = true) : digitVal c ≤ 9 := by
  have := isDigit_toNat h
  have h0 : '0'.toNat = 48 := rfl
  unfold digitVal
  omega

theorem daysInMonth_bounds (y mo : Nat) :
    28 ≤ daysInMonth y mo ∧ daysInMonth y mo ≤ 31 := by
  unfold daysInMonth
  split
  · split <;> omega
  · split <;> omega

/-- Unpacking of the Boolean validity predicate. -/
theorem valid_iff (t : DT) : t.valid = true ↔
    (1 ≤ t.y ∧ t.y ≤ 9999 ∧ 1 ≤ t.mo ∧ t.mo ≤ 12 ∧ 1 ≤ t.d ∧
     t.d ≤ daysInMonth t.y t.mo ∧ t.hh ≤ 23 ∧ t.mi ≤ 59 ∧ t.s ≤ 59) := by
  simp [DT.valid, validYMD, Bool.and_eq_true, decide_eq_true_eq, and_assoc]

theorem nextDay_time_fields (t : DT) :
    t.nextDay.hh = t.hh ∧ t.nextDay.mi = t.mi ∧ t.nextDay.s = t.s := by
  unfold DT.nextDay
  split
  · exact ⟨rfl, rfl, rfl⟩
  · split <;> exact ⟨rfl, rfl, rfl⟩

theorem dateKey_lt_nextDay {t : DT} (h1 : t.mo ≤ 12) (h2 : t.d ≤ 31) :
    t.dateKey < t.nextDay.dateKey := by
  unfold DT.nextDay DT.dateKey
  split
  · simp only
    omega
  · split <;> (simp only; omega)

theorem nextDay_valid {t : DT} (hv : t.valid = true) (hy : t.y ≤ 9998) :
    t.nextDay.valid = true ∧ t.nextDay.y ≤ t.y + 1 := by
  rw [valid_iff] at hv
  have hb1 := daysInMonth_bounds t.y (t.mo + 1)
  have hb2 := daysInMonth_bounds (t.y + 1) 1
  have hb3 := daysInMonth_bounds t.y t.mo
  unfold DT.nextDay
  split
  · rw [valid_iff]
    simp only
    omega
  · split
    · rw [valid_iff]
      simp only
      omega
    · rw [valid_iff]
      simp only
      omega

theorem addDays_props {k : Nat} : ∀ {t : DT}, t.valid = true → t.y + k ≤ 9999 →
    (t.addDays k).valid = true ∧ (t.addDays k).y ≤ t.y + k ∧
    t.dateKey ≤ (t.addDays k).dateKey ∧
    (t.addDays k).hh = t.hh ∧ (t.addDays k).mi = t.mi ∧ (t.addDays k).s = t.s := by
  induction k with
  | zero => intro t hv _; exact ⟨hv, Nat.le_refl _, Nat.le_refl _, rfl, rfl, rfl⟩
  | succ k ih =>
    intro t hv hy
    have hnv := nextDay_valid hv (by omega)
    have hkey : t.dateKey < t.nextDay.dateKey := by
      rw [valid_iff] at hv
      have := daysInMonth_bounds t.y t.mo
      exact dateKey_lt_nextDay (by omega) (by omega)
    have hfields := nextDay_time_fields t
    have := ih (t := t.nextDay) hnv.1 (by omega)
    have hstep : t.addDays (k + 1) = DT.addDays k t.nextDay := rfl
    rw [hstep]
    exact ⟨this.1, by omega, by omega, by omega, by omega, by omega⟩

theorem timeKey_lt {t : DT} (h1 : t.hh ≤ 23) (h2 : t.mi ≤ 59) (h3 : t.s ≤ 59) :
    t.timeKey < 86400 := by
  unfold DT.timeKey
  omega

theorem key_lt_of_dateKey_lt {a b : DT} (h : a.dateKey < b.dateKey)
    (ha : a.timeKey < 86400) : a.key < b.key := by
  unfold DT.key
  have : a.dateKey + 1 ≤ b.dateKey := h
  nlinarith [Nat.zero_le b.timeKey]

theorem atTime_valid {b : DT} (hb : b.valid = true) {hh mi : Nat}
    (hhh : hh ≤ 23) (hmi : mi ≤ 59) : (b.atTime hh mi).valid = true := by
  rw [valid_iff] at hb ⊢
  unfold DT.atTime
  simp only
  omega

/-- The shared future-correction step: starting from a valid base day no
earlier than `now`'s day, `futureCorrect` yields a valid instant that is
strictly after `now`, with the requested time-of-day fields. -/
theorem futureCorrect_ok {now b : DT} (hnow : now.valid = true)
    (hb : b.valid = true) (hby : b.y ≤ 9998)
    (hd : now.dateKey ≤ b.dateKey) {hh mi : Nat} (hhh : hh ≤ 23) (hmi : mi ≤ 59) :
    (futureCorrect now (b.atTime hh mi)).valid = true ∧
    now.key < (futureCorrect now (b.atTime hh mi)).key ∧
    (futureCorrect now (b.atTime hh mi)).hh = hh ∧
    (futureCorrect now (b.atTime hh mi)).mi = mi ∧
    (futureCorrect now (b.atTime hh mi)).s = 0 := by
  have hcv : (b.atTime hh mi).valid = true := atTime_valid hb hhh hmi
  have hnowt : now.timeKey < 86400 := by
    rw [valid_iff] at hnow
    exact timeKey_lt (by omega) (by omega) (by omega)
  have hcdk : (b.atTime hh mi).dateKey = b.dateKey := rfl
  unfold futureCorrect
  split
  · -- past or present: advance one day
    have h1 : DT.addDays 1 (b.atTime hh mi) = (b.atTime hh mi).nextDay := rfl
    rw [h1]
    have hnd := nextDay_valid hcv (by show b.y ≤ 9998; exact hby)
    have hlt : (b.atTime hh mi).dateKey < (b.atTime hh mi).nextDay.dateKey := by
      rw [valid_iff] at hcv
      have := daysInMonth_bounds (b.atTime hh mi).y (b.atTime hh mi).mo
      exact dateKey_lt_nextDay (by omega) (by omega)
    have hfields := nextDay_time_fields (b.atTime hh mi)
    refine ⟨hnd.1, key_lt_of_dateKey_lt (by omega) hnowt, ?_, ?_, ?_⟩
    · show (b.atTime hh mi).nextDay.hh = hh
      have : (b.atTime hh mi).hh = hh := rfl
      omega
    · show (b.atTime hh mi).nextDay.mi = mi
      have : (b.atTime hh mi).mi = mi := rfl
      omega
    · show (b.atTime hh mi).nextDay.s = 0
      have : (b.atTime hh mi).s = 0 := rfl
      omega
  · -- already strictly future
    rename_i hgt
    exact ⟨hcv, by omega, rfl, rfl, rfl⟩

/-- The day-offset rule keeps validity, stays within the year bound,
and never moves the day backwards. -/
theorem dayOffsetBase_ok {now : DT} (hv : now.valid = true) (hy : now.y ≤ 9000)
    (tl : Str) :
    (dayOffsetBase now tl).valid = true ∧ (dayOffsetBase now tl).y ≤ 9998 ∧
    now.dateKey ≤ (dayOffsetBase now tl).dateKey := by
  unfold dayOffsetBase
  split
  · have := addDays_props (k := 2) hv (by omega)
    exact ⟨this.1, by omega, this.2.2.1⟩
  · split
    · have := addDays_props (k := 1) hv (by omega)
      exact ⟨this.1, by omega, this.2.2.1⟩
    · exact ⟨hv, by omega, Nat.le_refl _⟩

/-! ## Day-part settings lemmas -/

/-- A well-formed `"HH:MM"` value (two digits, colon, two digits, in
range) — the shape every `_get_times` output has. -/
def validHHMM (s : Str) : Bool :=
  match matchHHcolonMM s with
  | some p => p.1 ≤ 23 && p.2 ≤ 59
  | none => false

theorem pad2_digits {n : Nat} (h : n ≤ 99) :
    pad2 n = [digitChar (n / 10), digitChar (n % 10)] := by
  unfold pad2
  rw [if_pos (by omega)]

theorem hhmm_of_bounds {s : Str} (h : validHHMM s = true) :
    (hhmm_of s).1 ≤ 23 ∧ (hhmm_of s).2 ≤ 59 := by
  rcases s with _ | ⟨a, _ | ⟨b, _ | ⟨c, _ | ⟨d, _ | ⟨e, _ | ⟨f, rest⟩⟩⟩⟩⟩⟩ <;>
  first
    | (simp [validHHMM, matchHHcolonMM] at h; done)
    | (simp only [validHHMM, matchHHcolonMM] at h
       by_cases hc :
         (a.isDigit && b.isDigit && decide (c = ':') && d.isDigit && e.isDigit) = true
       · simp only [if_pos hc] at h
         simp at h
         simp only [hhmm_of]
         omega
       · simp only [if_neg hc] at h
         simp at h)

theorem validHHMM_pad (hh mm : Nat) (h1 : hh ≤ 23) (h2 : mm ≤ 59) :
    validHHMM (pad2 hh ++ [':'] ++ pad2 mm) = true := by
  rw [pad2_digits (by omega), pad2_digits (by omega)]
  have e1 := digitChar_isDigit (k := hh / 10) (by omega)
  have e2 := digitChar_isDigit (k := hh % 10) (by omega)
  have e3 := digitChar_isDigit (k := mm / 10) (by omega)
  have e4 := digitChar_isDigit (k := mm % 10) (by omega)
  have v1 := digitVal_digitChar (k := hh / 10) (by omega)
  have v2 := digitVal_digitChar (k := hh % 10) (by omega)
  have v3 := digitVal_digitChar (k := mm / 10) (by omega)
  have v4 := digitVal_digitChar (k := mm % 10) (by omega)
  simp only [List.cons_append, List.nil_append, validHHMM, matchHHcolonMM,
    e1, e2, e3, e4, Bool.and_eq_true, decide_eq_true_eq]
  rw [if_pos (by simp [e1, e2, e3, e4])]
  simp only [Bool.and_eq_true, decide_eq_true_eq, v1, v2, v3, v4]
  omega

theorem normalize_hhmm_valid (v fb : Str) (hfb : validHHMM fb = true) :
    validHHMM (normalize_hhmm v fb) = true := by
  unfold normalize_hhmm
  split
  · exact hfb
  · cases hm : matchHHcolonMM (stripPy v) with
    | some p =>
      simp only [hm]
      split
      · rename_i hrange
        unfold validHHMM
        rw [hm]
        exact hrange
      · exact hfb
    | none =>
      simp only [hm]
      cases hm2 : matchH1or2sepMM (stripPy v) with
      | some p =>
        simp only [hm2]
        split
        · rename_i hrange
          simp only [Bool.and_eq_true, decide_eq_true_eq] at hrange
          exact validHHMM_pad p.1 p.2 hrange.1 hrange.2
        · exact hfb
      | none => exact hfb

/-- Every field `_get_times` returns is a valid `HH:MM` value (the C8
validity invariant, reused by the recognizers). -/
theorem get_times_valid (ut : Option (List (Str × Str))) :
    validHHMM (get_times ut).morning = true ∧
    validHHMM (get_times ut).day = true ∧
    validHHMM (get_times ut).evening = true ∧
    validHHMM (get_times ut).dflt = true := by
  unfold get_times
  refine ⟨normalize_hhmm_valid _ _ (by decide), normalize_hhmm_valid _ _ (by decide),
    normalize_hhmm_valid _ _ (by decide), normalize_hhmm_valid _ _ (by decide)⟩

/-! ## `strptime` / `strftime` lemmas -/

theorem comp2_pad {okT : Nat → Bool} {v : Nat} (hv99 : v ≤ 99)
    (hok : okT v = true) (sep : Char) (rest : Str) :
    comp2 okT sep (digitChar (v / 10) :: digitChar (v % 10) :: sep :: rest) =
      some (v, rest) := by
  have i1 := digitChar_isDigit (k := v / 10) (by omega)
  have i2 := digitChar_isDigit (k := v % 10) (by omega)
  have v1 := digitVal_digitChar (k := v / 10) (by omega)
  have v2 := digitVal_digitChar (k := v % 10) (by omega)
  unfold comp2
  dsimp only
  rw [v1, v2]
  have hv : v / 10 * 10 + v % 10 = v := by omega
  rw [hv]
  simp [i1, i2, hok]

theorem compThenSep_pad {okT okO : Nat → Bool} {v : Nat} (hv99 : v ≤ 99)
    (hok : okT v = true) (sep : Char) (rest : Str) :
    compThenSep okT okO sep (digitChar (v / 10) :: digitChar (v % 10) :: sep :: rest) =
      some (v, rest) := by
  unfold compThenSep
  rw [comp2_pad hv99 hok]
  rfl

theorem compEnd_pad {okT okO : Nat → Bool} {v : Nat} (hv99 : v ≤ 99)
    (hok : okT v = true) :
    compEnd okT okO [digitChar (v / 10), digitChar (v % 10)] = some v := by
  have i1 := digitChar_isDigit (k := v / 10) (by omega)
  have i2 := digitChar_isDigit (k := v % 10) (by omega)
  have v1 := digitVal_digitChar (k := v / 10) (by omega)
  have v2 := digitVal_digitChar (k := v % 10) (by omega)
  unfold compEnd
  dsimp only
  rw [v1, v2]
  have hv : v / 10 * 10 + v % 10 = v := by omega
  rw [hv]
  simp [i1, i2, hok]

theorem comp2_bounds {okT : Nat → Bool} {sep : Char} {l : Str}
    {v : Nat} {r : Str} (h : comp2 okT sep l = some (v, r)) : okT v = true := by
  unfold comp2 at h
  rcases l with _ | ⟨a, _ | ⟨b, _ | ⟨c, rest⟩⟩⟩ <;> simp at h
  obtain ⟨⟨⟨_, hok⟩, _⟩, hv, _⟩ := h
  exact hv ▸ hok

theorem comp1_bounds {okO : Nat → Bool} {sep : Char} {l : Str}
    {v : Nat} {r : Str} (h : comp1 okO sep l = some (v, r)) :
    v ≤ 9 ∧ okO v = true := by
  unfold comp1 at h
  rcases l with _ | ⟨a, _ | ⟨c, rest⟩⟩ <;> simp at h
  obtain ⟨⟨⟨hdig, hok⟩, _⟩, hv, _⟩ := h
  exact ⟨hv ▸ digitVal_le9 hdig, hv ▸ hok⟩

theorem compThenSep_bounds {okT okO : Nat → Bool} {sep : Char} {l : Str}
    {v : Nat} {r : Str} (h : compThenSep okT okO sep l = some (v, r)) :
    okT v = true ∨ (v ≤ 9 ∧ okO v = true) := by
  unfold compThenSep at h
  cases h2 : comp2 okT sep l with
  | some p =>
    rw [h2] at h
    simp only [Option.some_orElse] at h
    cases h
    exact Or.inl (comp2_bounds h2)
  | none =>
    rw [h2] at h
    simp only [Option.none_orElse] at h
    exact Or.inr (comp1_bounds h)

theorem compEnd_bounds {okT okO : Nat → Bool} {l : Str} {v : Nat}
    (h : compEnd okT okO l = some v) :
    okT v = true ∨ (v ≤ 9 ∧ okO v = true) := by
  unfold compEnd at h
  rcases l with _ | ⟨a, _ | ⟨b, _ | ⟨c, rest⟩⟩⟩ <;> simp at h
  · obtain ⟨⟨hdig, hok⟩, hv⟩ := h
    exact Or.inr ⟨hv ▸ digitVal_le9 hdig, hv ▸ hok⟩
  · obtain ⟨⟨_, hok⟩, hv⟩ := h
    exact Or.inl (hv ▸ hok)

/-- Everything `strptime` accepts is a calendar-valid timestamp. -/
theorem parseYmdHms_valid {str : Str} {t : DT} (h : parseYmdHms str = some t) :
    t.valid = true := by
  unfold parseYmdHms at h
  split at h
  case h_2 => exact absurd h (by simp)
  case h_1 a b c d rest =>
    split at h
    case isFalse => exact absurd h (by simp)
    case isTrue hdig =>
      cases hmo : compThenSep (fun v => 1 ≤ v && v ≤ 12) (fun v => 1 ≤ v) '-' rest with
      | none => rw [hmo] at h; exact absurd h (by simp)
      | some pmo =>
        obtain ⟨mo, r2⟩ := pmo
        rw [hmo] at h
        dsimp only at h
        cases hd : compThenSep (fun v => 1 ≤ v && v ≤ 31) (fun v => 1 ≤ v) ' ' r2 with
        | none => rw [hd] at h; exact absurd h (by simp)
        | some pd =>
          obtain ⟨dd, r3⟩ := pd
          rw [hd] at h
          dsimp only at h
          cases hhh : compThenSep (fun v => v ≤ 23) (fun _ => true) ':' r3 with
          | none => rw [hhh] at h; exact absurd h (by simp)
          | some phh =>
            obtain ⟨hh, r4⟩ := phh
            rw [hhh] at h
            dsimp only at h
            cases hmi : compThenSep (fun v => v ≤ 59) (fun _ => true) ':' r4 with
            | none => rw [hmi] at h; exact absurd h (by simp)
            | some pmi =>
              obtain ⟨mi, r5⟩ := pmi
              rw [hmi] at h
              dsimp only at h
              cases hss : compEnd (fun v => v ≤ 59) (fun _ => true) r5 with
              | none => rw [hss] at h; exact absurd h (by simp)
              | some vss =>
                rw [hss] at h
                dsimp only at h
                split at h
                case isFalse => exact absurd h (by simp)
                case isTrue hymd =>
                  have hhb := compThenSep_bounds hhh
                  have hmib := compThenSep_bounds hmi
                  have hssb := compEnd_bounds hss
                  simp only [decide_eq_true_eq] at hhb hmib hssb
                  simp only [Option.some.injEq] at h
                  subst h
                  simp only [DT.valid, hymd, Bool.true_and, Bool.and_eq_true,
                    decide_eq_true_eq]
                  refine ⟨⟨?_, ?_⟩, ?_⟩ <;> omega

/-- Formatting then parsing a valid timestamp is the identity — every
string the resolver builds with `strftime` reads back as the same civil
instant. -/
theorem parseYmdHms_fmtDT {t : DT} (hv : t.valid = true) :
    parseYmdHms (fmtDT t) = some t := by
  obtain ⟨y, mo, d, hh, mi, s⟩ := t
  rw [valid_iff] at hv
  simp only at hv
  have hd31 : d ≤ 31 := le_trans hv.2.2.2.2.2.1 (daysInMonth_bounds y mo).2
  have py : pad4 y = [digitChar (y / 1000), digitChar (y / 100 % 10),
      digitChar (y / 10 % 10), digitChar (y % 10)] := by
    unfold pad4; rw [if_pos (by omega)]
  have i1 := digitChar_isDigit (k := y / 1000) (by omega)
  have i2 := digitChar_isDigit (k := y / 100 % 10) (by omega)
  have i3 := digitChar_isDigit (k := y / 10 % 10) (by omega)
  have i4 := digitChar_isDigit (k := y % 10) (by omega)
  have v1 := digitVal_digitChar (k := y / 1000) (by omega)
  have v2 := digitVal_digitChar (k := y / 100 % 10) (by omega)
  have v3 := digitVal_digitChar (k := y / 10 % 10) (by omega)
  have v4 := digitVal_digitChar (k := y % 10) (by omega)
  simp only [fmtDT, py, pad2_digits (n := mo) (by omega),
    pad2_digits (n := d) (by omega), pad2_digits (n := hh) (by omega),
    pad2_digits (n := mi) (by omega), pad2_digits (n := s) (by omega),
    List.cons_append, List.nil_append]
  simp only [parseYmdHms, i1, i2, i3, i4, Bool.and_self, if_true, v1, v2, v3, v4]
  have hyval : ((y / 1000 * 10 + y / 100 % 10) * 10 + y / 10 % 10) * 10 + y % 10 = y := by
    omega
  rw [hyval]
  rw [compThenSep_pad (by omega) (by simp only [Bool.and_eq_true, decide_eq_true_eq]; omega) '-']
  dsimp only
  rw [compThenSep_pad (by omega) (by simp only [Bool.and_eq_true, decide_eq_true_eq]; omega) ' ']
  dsimp only
  rw [compThenSep_pad (by omega) (by simp only [decide_eq_true_eq]; omega) ':']
  dsimp only
  rw [compThenSep_pad (by omega) (by simp only [decide_eq_true_eq]; omega) ':']
  dsimp only
  rw [compEnd_pad (by omega) (by simp only [decide_eq_true_eq]; omega)]
  dsimp only
  have hymd : validYMD y mo d = true := by
    simp only [validYMD, Bool.and_eq_true, decide_eq_true_eq]
    refine ⟨⟨⟨⟨⟨?_, ?_⟩, ?_⟩, ?_⟩, ?_⟩, ?_⟩ <;> omega
  rw [if_pos hymd]

/-! ## Recognizer result shape lemmas -/

theorem futureCorrect_s (now c : DT) : (futureCorrect now c).s = c.s := by
  unfold futureCorrect
  split
  · show (DT.addDays 1 c).s = c.s
    have h1 : DT.addDays 1 c = c.nextDay := rfl
    rw [h1]
    exact (nextDay_time_fields c).2.2
  · rfl

/-- Every hour of `_HOUR_WORDS` is at most 12. -/
theorem hourWordsMap_le {w : Str} {hh : Nat}
    (h : pyLookup hourWordsMap w = some hh) : hh ≤ 12 := by
  unfold pyLookup at h
  cases hf : hourWordsMap.find? (fun p => p.1 = w) with
  | none => rw [hf] at h; exact absurd h (by simp)
  | some p =>
    rw [hf] at h
    simp at h
    have hmem := List.mem_of_find?_eq_some hf
    have hall : ∀ q ∈ hourWordsMap, q.2 ≤ 12 := by decide
    exact h ▸ hall p hmem

/-- Every minute of `_MINUTE_WORDS` is at most 59. -/
theorem minuteWordsMap_le {w : Str} {mm : Nat}
    (h : pyLookup minuteWordsMap w = some mm) : mm ≤ 59 := by
  unfold pyLookup at h
  cases hf : minuteWordsMap.find? (fun p => p.1 = w) with
  | none => rw [hf] at h; exact absurd h (by simp)
  | some p =>
    rw [hf] at h
    simp at h
    have hmem := List.mem_of_find?_eq_some hf
    have hall : ∀ q ∈ minuteWordsMap, q.2 ≤ 59 := by decide
    exact h ▸ hall p hmem

/-- The combined future/validity fact for one future-corrected
day-offset instant. -/
theorem resolveStep_ok {now : DT} (hv : now.valid = true) (hy : now.y ≤ 9000)
    (tl : Str) {hh mi : Nat} (hhh : hh ≤ 23) (hmi : mi ≤ 59) :
    (futureCorrect now ((dayOffsetBase now tl).atTime hh mi)).valid = true ∧
    now.key < (futureCorrect now ((dayOffsetBase now tl).atTime hh mi)).key := by
  obtain ⟨hb, hby, hbd⟩ := dayOffsetBase_ok hv hy tl
  have := futureCorrect_ok hv hb hby hbd hhh hmi
  exact ⟨this.1, this.2.1⟩

theorem default_datetime_ok {now : DT} (hv : now.valid = true) (hy : now.y ≤ 9000)
    {hhmm : Str} (hs : validHHMM hhmm = true) :
    (default_datetime now hhmm).valid = true ∧
    now.key < (default_datetime now hhmm).key ∧
    (default_datetime now hhmm).s = 0 := by
  have hb := hhmm_of_bounds hs
  have := futureCorrect_ok (b := now) hv hv (by omega) (Nat.le_refl _) hb.1 hb.2
  exact ⟨this.1, this.2.1, this.2.2.2.2⟩

/-- `_try_parse_explicit_time` results are future-corrected day-offset
instants at a bounded time-of-day. -/
theorem explicit_time_shape {now : DT} {user_text dflt : Str} {r : Str × DT}
    (h : try_parse_explicit_time now user_text dflt = some r) :
    ∃ tl hh mi, hh ≤ 23 ∧ mi ≤ 59 ∧
      r.2 = futureCorrect now ((dayOffsetBase now tl).atTime hh mi) := by
  unfold try_parse_explicit_time at h
  dsimp only at h
  cases hm : searchStr timeHHMMAt (stripPy user_text) with
  | none => rw [hm] at h; exact absurd h (by simp)
  | some m =>
    obtain ⟨ms, mlen, hh0, mm0⟩ := m
    rw [hm] at h
    dsimp only at h
    split at h
    case isTrue => exact absurd h (by simp)
    case isFalse =>
      split at h
      case isFalse => exact absurd h (by simp)
      case isTrue hr =>
        simp only [Bool.and_eq_true, decide_eq_true_eq] at hr
        refine ⟨lowerStr (stripPy user_text),
          (if (decide (hh0 < 12) && hasEveningWord (lowerStr (stripPy user_text))) = true
           then hh0 + 12 else hh0), mm0, ?_, hr.2, ?_⟩
        · split
          · rename_i hc
            simp only [Bool.and_eq_true, decide_eq_true_eq] at hc
            omega
          · omega
        · simp only [Option.some.injEq] at h
          subst h
          rfl

/-- `_try_parse_space_time` results have the same shape. -/
theorem space_time_shape {now : DT} {user_text : Str} {r : Str × DT}
    (h : try_parse_space_time now user_text = some r) :
    ∃ tl hh mi, hh ≤ 23 ∧ mi ≤ 59 ∧
      r.2 = futureCorrect now ((dayOffsetBase now tl).atTime hh mi) := by
  unfold try_parse_space_time at h
  dsimp only at h
  cases hm : searchStr spaceTimeAt (lowerStr (stripPy user_text)) with
  | none => rw [hm] at h; exact absurd h (by simp)
  | some m =>
    obtain ⟨ms, mlen, hh0, mm0⟩ := m
    rw [hm] at h
    dsimp only at h
    split at h
    case isFalse => exact absurd h (by simp)
    case isTrue hr =>
      simp only [Bool.and_eq_true, decide_eq_true_eq] at hr
      refine ⟨lowerStr (stripPy user_text),
        (if (decide (hh0 < 12) && hasEveningWord (lowerStr (stripPy user_text))) = true
         then hh0 + 12 else hh0), mm0, ?_, hr.2, ?_⟩
      · split
        · rename_i hc
          simp only [Bool.and_eq_true, decide_eq_true_eq] at hc
          omega
        · omega
      · simp only [Option.some.injEq] at h
        subst h
        rfl

/-- `_try_parse_spoken_time` results have the same shape. -/
theorem spoken_time_shape {now : DT} {user_text : Str} {r : Str × DT}
    (h : try_parse_spoken_time now user_text = some r) :
    ∃ tl hh mi, hh ≤ 23 ∧ mi ≤ 59 ∧
      r.2 = futureCorrect now ((dayOffsetBase now tl).atTime hh mi) := by
  unfold try_parse_spoken_time at h
  dsimp only at h
  cases hm : searchStr spokenTimeAt (lowerStr (stripPy user_text)) with
  | none => rw [hm] at h; exact absurd h (by simp)
  | some m =>
    obtain ⟨ms, mlen, hw, mwOpt⟩ := m
    rw [hm] at h
    dsimp only at h
    cases hhw : pyLookup hourWordsMap hw with
    | none => rw [hhw] at h; exact absurd h (by simp)
    | some hh0 =>
      rw [hhw] at h
      dsimp only at h
      have hhb := hourWordsMap_le hhw
      cases hmm : (match mwOpt with
                   | none => some 0
                   | some mw => pyLookup minuteWordsMap mw) with
      | none => rw [hmm] at h; exact absurd h (by simp)
      | some mm0 =>
        rw [hmm] at h
        dsimp only at h
        have hmb : mm0 ≤ 59 := by
          cases mwOpt with
          | none => simp at hmm; omega
          | some mw => exact minuteWordsMap_le hmm
        refine ⟨lowerStr (stripPy user_text),
          (if (decide (hh0 < 12) && hasEveningWord (lowerStr (stripPy user_text))) = true
           then hh0 + 12 else hh0), mm0, ?_, hmb, ?_⟩
        · split
          · rename_i hc
            simp only [Bool.and_eq_true, decide_eq_true_eq] at hc
            omega
          · omega
        · simp only [Option.some.injEq] at h
          subst h
          rfl

/-- `_try_parse_simple_dayparts` results have the same shape, at one of
the three configured day-part times. -/
theorem simple_dayparts_shape {now : DT} {user_text : Str} {times : Times}
    {r : Str × DT} (hm : validHHMM times.morning = true)
    (hd : validHHMM times.day = true) (he : validHHMM times.evening = true)
    (h : try_parse_simple_dayparts now user_text times = some r) :
    ∃ tl hh mi, hh ≤ 23 ∧ mi ≤ 59 ∧
      r.2 = futureCorrect now ((dayOffsetBase now tl).atTime hh mi) := by
  unfold try_parse_simple_dayparts at h
  dsimp only at h
  split at h
  case isTrue => exact absurd h (by simp)
  case isFalse =>
    split at h
    · exact absurd h (by simp)
    · rename_i v heq
      have hb : (hhmm_of v).1 ≤ 23 ∧ (hhmm_of v).2 ≤ 59 := by
        split at heq
        · cases heq; exact hhmm_of_bounds hm
        · split at heq
          · cases heq; exact hhmm_of_bounds hd
          · split at heq
            · cases heq; exact hhmm_of_bounds he
            · exact absurd heq (by simp)
      refine ⟨lowerStr user_text, (hhmm_of v).1, (hhmm_of v).2, hb.1, hb.2, ?_⟩
      simp only [Option.some.injEq] at h
      subst h
      rfl

/-- `_try_parse_relative_day_only` results have the same shape, at the
default time. -/
theorem relative_day_shape {now : DT} {user_text dflt : Str} {r : Str × DT}
    (hdf : validHHMM dflt = true)
    (h : try_parse_relative_day_only now user_text dflt = some r) :
    ∃ tl hh mi, hh ≤ 23 ∧ mi ≤ 59 ∧
      r.2 = futureCorrect now ((dayOffsetBase now tl).atTime hh mi) := by
  unfold try_parse_relative_day_only at h
  dsimp only at h
  have hb := hhmm_of_bounds hdf
  split at h
  case isTrue => exact absurd h (by simp)
  case isFalse =>
    split at h
    case isTrue => exact absurd h (by simp)
    case isFalse =>
      split at h
      case isTrue => exact absurd h (by simp)
      case isFalse =>
        split at h
        case isTrue => exact absurd h (by simp)
        case isFalse =>
          refine ⟨lowerStr (stripPy user_text), (hhmm_of dflt).1, (hhmm_of dflt).2,
            hb.1, hb.2, ?_⟩
          simp only [Option.some.injEq] at h
          subst h
          rfl

/-! ## Cascade-level lemmas -/

theorem explicit_dt_s0 {now : DT} {user_text : Str} {r : Str × DT}
    (h : try_parse_explicit_datetime now user_text = some r) : r.2.s = 0 := by
  unfold try_parse_explicit_datetime at h
  dsimp only at h
  cases hm : searchStr explicitDTAt (stripPy user_text) with
  | none => rw [hm] at h; exact absurd h (by simp)
  | some m =>
    obtain ⟨start, len, day, mon, yOpt, hh, mm⟩ := m
    rw [hm] at h
    dsimp only at h
    split at h
    case isFalse => exact absurd h (by simp)
    case isTrue =>
      split at h
      case isFalse => exact absurd h (by simp)
      case isTrue =>
        simp only [Option.some.injEq] at h
        subst h
        rfl

theorem default_datetime_s (now : DT) (x : Str) : (default_datetime now x).s = 0 := by
  unfold default_datetime
  dsimp only
  rw [futureCorrect_s]
  rfl

/-- Every local resolution (steps 0–5 of the cascade, the no-signal
default included) carries seconds `= 0`. -/
theorem localResolve_s0 {now : DT} {text : Str} {uts : Option (List (Str × Str))}
    {r : Str × DT} (h : localResolve now text (get_times uts) = some r) :
    r.2.s = 0 := by
  unfold localResolve at h
  cases h0 : try_parse_explicit_datetime now text with
  | some r0 =>
    rw [h0] at h
    dsimp only at h
    cases h
    exact explicit_dt_s0 h0
  | none =>
    rw [h0] at h
    dsimp only at h
    cases h1 : try_parse_explicit_time now text (get_times uts).dflt with
    | some r1 =>
      rw [h1] at h
      dsimp only at h
      cases h
      obtain ⟨tl, hh, mi, _, _, hs⟩ := explicit_time_shape h1
      rw [hs, futureCorrect_s]
      rfl
    | none =>
      rw [h1] at h
      dsimp only at h
      cases h2 : try_parse_space_time now text with
      | some r2 =>
        rw [h2] at h
        dsimp only at h
        cases h
        obtain ⟨tl, hh, mi, _, _, hs⟩ := space_time_shape h2
        rw [hs, futureCorrect_s]
        rfl
      | none =>
        rw [h2] at h
        dsimp only at h
        cases h3 : try_parse_spoken_time now text with
        | some r3 =>
          rw [h3] at h
          dsimp only at h
          cases h
          obtain ⟨tl, hh, mi, _, _, hs⟩ := spoken_time_shape h3
          rw [hs, futureCorrect_s]
          rfl
        | none =>
          rw [h3] at h
          dsimp only at h
          cases h4 : try_parse_relative_day_only now text (get_times uts).dflt with
          | some r4 =>
            rw [h4] at h
            dsimp only at h
            cases h
            obtain ⟨tl, hh, mi, _, _, hs⟩ :=
              relative_day_shape (get_times_valid uts).2.2.2 h4
            rw [hs, futureCorrect_s]
            rfl
          | none =>
            rw [h4] at h
            dsimp only at h
            cases h5 : try_parse_simple_dayparts now text (get_times uts) with
            | some r5 =>
              rw [h5] at h
              dsimp only at h
              cases h
              obtain ⟨tl, hh, mi, _, _, hs⟩ :=
                simple_dayparts_shape (get_times_valid uts).1
                  (get_times_valid uts).2.1 (get_times_valid uts).2.2.1 h5
              rw [hs, futureCorrect_s]
              rfl
            | none =>
              rw [h5] at h
              dsimp only at h
              split at h
              case isTrue =>
                cases h
                exact default_datetime_s now (get_times uts).dflt
              case isFalse => exact absurd h (by simp)

/-- Every local resolution other than the explicit date+time recognizer
is calendar-valid and strictly after `now`. -/
theorem localResolve_future {now : DT} {text : Str}
    {uts : Option (List (Str × Str))} {r : Str × DT}
    (hv : now.valid = true) (hy : now.y ≤ 9000)
    (hne : try_parse_explicit_datetime now text = none)
    (h : localResolve now text (get_times uts) = some r) :
    r.2.valid = true ∧ now.key < r.2.key := by
  unfold localResolve at h
  rw [hne] at h
  dsimp only at h
  cases h1 : try_parse_explicit_time now text (get_times uts).dflt with
  | some r1 =>
    rw [h1] at h
    dsimp only at h
    cases h
    obtain ⟨tl, hh, mi, hb1, hb2, hs⟩ := explicit_time_shape h1
    rw [hs]
    exact resolveStep_ok hv hy tl hb1 hb2
  | none =>
    rw [h1] at h
    dsimp only at h
    cases h2 : try_parse_space_time now text with
    | some r2 =>
      rw [h2] at h
      dsimp only at h
      cases h
      obtain ⟨tl, hh, mi, hb1, hb2, hs⟩ := space_time_shape h2
      rw [hs]
      exact resolveStep_ok hv hy tl hb1 hb2
    | none =>
      rw [h2] at h
      dsimp only at h
      cases h3 : try_parse_spoken_time now text with
      | some r3 =>
        rw [h3] at h
        dsimp only at h
        cases h
        obtain ⟨tl, hh, mi, hb1, hb2, hs⟩ := spoken_time_shape h3
        rw [hs]
        exact resolveStep_ok hv hy tl hb1 hb2
      | none =>
        rw [h3] at h
        dsimp only at h
        cases h4 : try_parse_relative_day_only now text (get_times uts).dflt with
        | some r4 =>
          rw [h4] at h
          dsimp only at h
          cases h
          obtain ⟨tl, hh, mi, hb1, hb2, hs⟩ :=
            relative_day_shape (get_times_valid uts).2.2.2 h4
          rw [hs]
          exact resolveStep_ok hv hy tl hb1 hb2
        | none =>
          rw [h4] at h
          dsimp only at h
          cases h5 : try_parse_simple_dayparts now text (get_times uts) with
          | some r5 =>
            rw [h5] at h
            dsimp only at h
            cases h
            obtain ⟨tl, hh, mi, hb1, hb2, hs⟩ :=
              simple_dayparts_shape (get_times_valid uts).1
                (get_times_valid uts).2.1 (get_times_valid uts).2.2.1 h5
            rw [hs]
            exact resolveStep_ok hv hy tl hb1 hb2
          | none =>
            rw [h5] at h
            dsimp only at h
            split at h
            case isTrue =>
              cases h
              have := default_datetime_ok hv hy (get_times_valid uts).2.2.2
              exact ⟨this.1, this.2.1⟩
            case isFalse => exact absurd h (by simp)

/-- `_fix_past_datetime` always yields a parseable, strictly future
civil timestamp string. -/
theorem fix_past_ok {now : DT} (hv : now.valid = true) (hy : now.y ≤ 9000)
    (ds text dflt : Str) (hdf : validHHMM dflt = true) :
    ∃ dtv, parseYmdHms (fix_past_datetime now ds text dflt) = some dtv ∧
      now.key < dtv.key := by
  have hdef := default_datetime_ok hv hy hdf
  have hdefrt := parseYmdHms_fmtDT hdef.1
  unfold fix_past_datetime
  cases hp : parseYmdHms ds with
  | none =>
    dsimp only
    exact ⟨_, hdefrt, hdef.2.1⟩
  | some dtv0 =>
    dsimp only
    split
    case isTrue hlt => exact ⟨dtv0, hp, hlt⟩
    case isFalse =>
      split
      case isFalse => exact ⟨_, hdefrt, hdef.2.1⟩
      case isTrue =>
        split
        case isFalse => exact ⟨_, hdefrt, hdef.2.1⟩
        case isTrue hval2 =>
          split
          case isTrue hlt2 =>
            have hv0 := parseYmdHms_valid hp
            have hv2 : ({dtv0 with y := dtv0.y + 1} : DT).valid = true := by
              rw [valid_iff] at hv0 ⊢
              simp only [validYMD, Bool.and_eq_true, decide_eq_true_eq] at hval2
              simp only at hv0 ⊢
              omega
            exact ⟨_, parseYmdHms_fmtDT hv2, hlt2⟩
          case isFalse => exact ⟨_, hdefrt, hdef.2.1⟩

/-- Every success coming out of the remote-model fallback carries a
strictly future datetime. -/
theorem parse_with_openai_future {now : DT} {key : Bool} {remote : Remote}
    {text : Str} {uts : Option (List (Str × Str))} {task dstr orig : Str}
    (hv : now.valid = true) (hy : now.y ≤ 9000)
    (h : parse_with_openai now key remote text (get_times uts) =
      .ok (.ok task dstr orig)) :
    ∃ dtv, parseYmdHms dstr = some dtv ∧ now.key < dtv.key := by
  have hdf := (get_times_valid uts).2.2.2
  have hdef := default_datetime_ok hv hy hdf
  have hdefrt := parseYmdHms_fmtDT hdef.1
  unfold parse_with_openai at h
  split at h
  case isTrue => exact absurd h (by simp)
  case isFalse =>
    cases remote with
    | exn m => exact absurd h (by simp)
    | dict taskF dtF origF =>
      dsimp only at h
      split at h
      case isTrue => exact absurd h (by simp)
      case isFalse =>
        cases dtF with
        | none =>
          dsimp only at h
          simp only [Except.ok.injEq, ParseResult.ok.injEq] at h
          obtain ⟨-, hd, -⟩ := h
          subst hd
          exact ⟨_, hdefrt, hdef.2.1⟩
        | some ds =>
          dsimp only at h
          split at h
          case isTrue =>
            simp only [Except.ok.injEq, ParseResult.ok.injEq] at h
            obtain ⟨-, hd, -⟩ := h
            subst hd
            exact ⟨_, hdefrt, hdef.2.1⟩
          case isFalse =>
            simp only [Except.ok.injEq, ParseResult.ok.injEq] at h
            obtain ⟨-, hd, -⟩ := h
            subst hd
            exact fix_past_ok hv hy ds text (get_times uts).dflt hdf

theorem futureCorrect_hh (now b : DT) (hh mi : Nat) :
    (futureCorrect now (b.atTime hh mi)).hh = hh := by
  unfold futureCorrect
  split
  · show (DT.addDays 1 (b.atTime hh mi)).hh = hh
    have h1 : DT.addDays 1 (b.atTime hh mi) = (b.atTime hh mi).nextDay := rfl
    rw [h1]
    exact (nextDay_time_fields _).1
  · rfl

/-- The normalization `_simple_split_lines` applies before branching:
trim, CR/CRLF → LF, collapse every whitespace run to one space, trim. -/
def segNorm (text : Str) : Str :=
  stripPy (collapseWS (replaceCR (replaceCRLF (stripPy text))))

/-- `_simple_split_lines` returns `[]` only on blank input; otherwise it
returns either at least two parts or exactly the singleton of the
normalized text. -/
theorem simple_split_lines_cases (text : Str) :
    (stripPy text = [] ∧ simple_split_lines text = []) ∨
    2 ≤ (simple_split_lines text).length ∨
    simple_split_lines text = [segNorm text] := by
  unfold simple_split_lines segNorm
  dsimp only
  split
  case isTrue h =>
    left
    refine ⟨?_, rfl⟩
    simpa [List.isEmpty_iff] using h
  case isFalse h =>
    split
    case isTrue =>
      split
      case isTrue h2 => right; left; exact h2
      case isFalse => right; right; rfl
    case isFalse =>
      split
      case isTrue =>
        split
        case isTrue h2 => right; left; exact h2
        case isFalse => right; right; rfl
      case isFalse =>
        split
        case isTrue =>
          split
          case isTrue h2 => right; left; exact h2
          case isFalse => right; right; rfl
        case isFalse => right; right; rfl

/-! ## The claims -/

/-- C10: for every input resolved by a local recognizer or the local
no-signal default path (every success of `parse_text` that does not go
through the remote-model fallback), the returned datetime string has a
seconds field equal to `00`. -/
theorem C10_local_seconds_zero (now : DT) (key : Bool) (remote : Remote)
    (text : Str) (uts : Option (List (Str × Str))) (r : Str × DT)
    (h : localResolve now text (get_times uts) = some r) :
    parse_text now key remote text uts = .ok r.1 (fmtDT r.2) text ∧
    r.2.s = 0 ∧ ∃ pre, fmtDT r.2 = pre ++ S ":00" := by
  have hs0 := localResolve_s0 h
  refine ⟨?_, hs0, ?_⟩
  · unfold parse_text
    dsimp only
    rw [h]
  · refine ⟨pad4 r.2.y ++ ['-'] ++ pad2 r.2.mo ++ ['-'] ++ pad2 r.2.d ++ [' '] ++
      pad2 r.2.hh ++ [':'] ++ pad2 r.2.mi, ?_⟩
    unfold fmtDT
    rw [hs0]
    have hp : pad2 0 = ['0', '0'] := by decide
    rw [hp]
    simp [S, List.append_assoc]

/-- C10 witness: `"купить молоко"` resolves locally (no-signal default)
at the reference instant to today 20:00:00, with seconds `00`. -/
theorem C10_witness :
    parse_text ⟨2026, 1, 15, 12, 0, 0⟩ false (.exn (S "x")) (S "купить молоко") none =
      .ok (S "купить молоко") (fmtDT (⟨2026, 1, 15, 20, 0, 0⟩ : DT)) (S "купить молоко") ∧
    (⟨2026, 1, 15, 20, 0, 0⟩ : DT).s = 0 ∧
    ∃ pre, fmtDT (⟨2026, 1, 15, 20, 0, 0⟩ : DT) = pre ++ S ":00" :=
  C10_local_seconds_zero ⟨2026, 1, 15, 12, 0, 0⟩ false (.exn (S "x"))
    (S "купить молоко") none (S "купить молоко", ⟨2026, 1, 15, 20, 0, 0⟩) (by decide)

/-- C2 (code bug): the segmenter is claimed to split multi-line input on
line breaks, but `_simple_split_lines` collapses every whitespace run —
newlines included — to a single space *before* testing `"\n" in t`, so
the line-splitting branch is unreachable: `"line1\nline2\nline3"` comes
back as the single item `"line1 line2 line3"`.  The third conjunct
exhibits the dead guard: the normalized text never contains a newline. -/
theorem C2_line_split_dead :
    (∀ (key : Bool) (remote : SplitRemote),
      split_into_reminders (S "line1\nline2\nline3") key remote =
        ⟨[S "line1 line2 line3"], none⟩) ∧
    simple_split_lines (S "line1\nline2\nline3") = [S "line1 line2 line3"] ∧
    containsSub ['\n'] (segNorm (S "line1\nline2\nline3")) = false := by
  have hs : simple_split_lines (S "line1\nline2\nline3") = [S "line1 line2 line3"] := by
    decide
  refine ⟨?_, hs, by decide⟩
  intro key remote
  unfold split_into_reminders
  rw [hs]
  rfl

/-- C9 counterexample: on the input `"a  b"` (double inner space) the
local rules yield a single item, but that item is the
whitespace-collapsed text `"a b"`, not the merely-trimmed input
`"a  b"` the claim promises. -/
theorem C9_counterexample :
    simple_split_lines (S "a  b") = [S "a b"] ∧
    (simple_split_lines (S "a  b")).length < 2 ∧
    stripPy (S "a  b") ≠ [] ∧
    split_into_reminders (S "a  b") false (.exn (S "x")) = ⟨[S "a b"], none⟩ ∧
    S "a b" ≠ stripPy (S "a  b") := by
  refine ⟨by decide, by decide, by decide, ?_, by decide⟩
  have hs : simple_split_lines (S "a  b") = [S "a b"] := by decide
  unfold split_into_reminders
  rw [hs]
  rfl

/-- C9 amended: for every input with at least one non-whitespace
character, if the segmenter's local rules yield fewer than two items
then `split_into_reminders` returns exactly one item — the input after
the segmenter's normalization (trim, newline conversion, whitespace
collapse, trim) — with `error` unset; in particular `items` is
non-empty and trivially in source order. -/
theorem C9_single_item_fallback (text : Str) (key : Bool) (remote : SplitRemote)
    (hne : stripPy text ≠ [])
    (hlt : (simple_split_lines text).length < 2) :
    split_into_reminders text key remote = ⟨[segNorm text], none⟩ := by
  rcases simple_split_lines_cases text with ⟨h1, -⟩ | h2 | h3
  · exact absurd h1 hne
  · omega
  · unfold split_into_reminders
    rw [h3]
    rfl

/-- C9 witness: a one-anchor utterance yields the single-item fallback. -/
theorem C9_witness :
    stripPy (S "buy bread tomorrow") ≠ [] ∧
    (simple_split_lines (S "buy bread tomorrow")).length < 2 ∧
    split_into_reminders (S "buy bread tomorrow") false (.exn (S "x")) =
      ⟨[segNorm (S "buy bread tomorrow")], none⟩ :=
  ⟨by decide, by decide,
    C9_single_item_fallback (S "buy bread tomorrow") false (.exn (S "x"))
      (by decide) (by decide)⟩

/-- C7: the explicit-time recognizer never extracts a time from a span
that overlaps a date token: if the first `H:MM`/`H.MM` match overlaps
the span of any `_DATE_TOKEN_RE` match, the recognizer returns `None`. -/
theorem C7_date_token_guard (now : DT) (text dflt : Str)
    (ms mlen hh mm : Nat)
    (h1 : searchStr timeHHMMAt (stripPy text) = some (ms, mlen, hh, mm))
    (h2 : ∃ dm ∈ findAllStr dateTokenAt (stripPy text),
      ¬(ms + mlen ≤ dm.1 ∨ dm.1 + dm.2.1 ≤ ms)) :
    try_parse_explicit_time now text dflt = none := by
  unfold try_parse_explicit_time
  dsimp only
  rw [h1]
  dsimp only
  obtain ⟨dm, hmem, hov⟩ := h2
  rw [not_or] at hov
  have hcond : (findAllStr dateTokenAt (stripPy text)).any
      (fun dm => !(decide (ms + mlen ≤ dm.1) || decide (dm.1 + dm.2.1 ≤ ms))) = true := by
    rw [List.any_eq_true]
    refine ⟨dm, hmem, ?_⟩
    simp only [Bool.not_eq_true', Bool.or_eq_false_iff, decide_eq_false_iff_not]
    exact hov
  rw [if_pos hcond]

/-- C7 witness: the bare date `"01.01.26"` is never read as the time
`01:01`. -/
theorem C7_witness :
    try_parse_explicit_time ⟨2026, 1, 15, 12, 0, 0⟩ (S "01.01.26") (S "20:00") = none :=
  C7_date_token_guard ⟨2026, 1, 15, 12, 0, 0⟩ (S "01.01.26") (S "20:00")
    0 5 1 1 (by decide) ⟨(0, 8, ()), by decide, by decide⟩

/-- C4: resolving `"21.12.25 14:48 купить хлеб"` is deterministic — for
every clock value, settings mapping and remote state it yields datetime
`"2025-12-21 14:48:00"` with the surrounding words as the task — and
two-digit years normalize 00-69 → 2000s, 70-99 → 1900s, with a missing
year defaulting to the current year. -/
theorem C4_explicit_datetime_deterministic :
    (∀ (now : DT) (key : Bool) (remote : Remote) (uts : Option (List (Str × Str))),
      parse_text now key remote (S "21.12.25 14:48 купить хлеб") uts =
        .ok (S "купить хлеб") (S "2025-12-21 14:48:00")
          (S "21.12.25 14:48 купить хлеб")) ∧
    (∀ nowY yy, yy ≤ 69 → normalize_year_2or4 nowY (some yy) = 2000 + yy) ∧
    (∀ nowY yy, 70 ≤ yy → yy ≤ 99 → normalize_year_2or4 nowY (some yy) = 1900 + yy) ∧
    (∀ nowY, normalize_year_2or4 nowY none = nowY) := by
  refine ⟨?_, ?_, ?_, fun _ => rfl⟩
  · intro now key remote uts
    have hdt : try_parse_explicit_datetime now (S "21.12.25 14:48 купить хлеб") =
        some (S "купить хлеб", ⟨2025, 12, 21, 14, 48, 0⟩) := by
      unfold try_parse_explicit_datetime
      dsimp only
      have hsearch : searchStr explicitDTAt (stripPy (S "21.12.25 14:48 купить хлеб")) =
          some (0, 14, 21, 12, some 25, 14, 48) := by rfl
      rw [hsearch]
      dsimp only
      have hyr : normalize_year_2or4 now.y (some 25) = 2025 := rfl
      rw [hyr]
      decide
    unfold parse_text localResolve
    dsimp only
    rw [hdt]
    dsimp only
    have hf : fmtDT (⟨2025, 12, 21, 14, 48, 0⟩ : DT) = S "2025-12-21 14:48:00" := by
      decide
    rw [hf]
  · intro nowY yy h
    unfold normalize_year_2or4
    dsimp only
    rw [if_pos (by omega), if_pos (by omega)]
  · intro nowY yy h1 h2
    unfold normalize_year_2or4
    dsimp only
    rw [if_pos (by omega), if_neg (by omega)]

/-- C4 witness: concrete instances of the year-normalization clauses
and of the deterministic resolution. -/
theorem C4_witness :
    parse_text ⟨2027, 3, 1, 9, 30, 0⟩ true (.dict none none none)
        (S "21.12.25 14:48 купить хлеб") (some []) =
      .ok (S "купить хлеб") (S "2025-12-21 14:48:00")
        (S "21.12.25 14:48 купить хлеб") ∧
    normalize_year_2or4 1999 (some 25) = 2000 + 25 ∧
    normalize_year_2or4 1999 (some 85) = 1900 + 85 ∧
    normalize_year_2or4 2026 none = 2026 :=
  ⟨C4_explicit_datetime_deterministic.1 ⟨2027, 3, 1, 9, 30, 0⟩ true
      (.dict none none none) (some []),
    C4_explicit_datetime_deterministic.2.1 1999 25 (by decide),
    C4_explicit_datetime_deterministic.2.2.1 1999 85 (by decide) (by decide),
    C4_explicit_datetime_deterministic.2.2.2 2026⟩

/-- C1 counterexample: the explicit date+time recognizer performs no
future check, so `parse_text` can succeed with a datetime in the past —
resolving `"21.12.25 14:48 купить хлеб"` at the civil instant
2026-01-15 12:00:00 yields 2025-12-21 14:48:00, which is before now. -/
theorem C1_counterexample :
    (⟨2026, 1, 15, 12, 0, 0⟩ : DT).valid = true ∧
    parse_text ⟨2026, 1, 15, 12, 0, 0⟩ false (.exn (S "x"))
        (S "21.12.25 14:48 купить хлеб") none =
      .ok (S "купить хлеб") (S "2025-12-21 14:48:00")
        (S "21.12.25 14:48 купить хлеб") ∧
    parseYmdHms (S "2025-12-21 14:48:00") = some ⟨2025, 12, 21, 14, 48, 0⟩ ∧
    (⟨2025, 12, 21, 14, 48, 0⟩ : DT).key < (⟨2026, 1, 15, 12, 0, 0⟩ : DT).key := by
  exact ⟨by decide, by decide, by decide, by decide⟩

/-- C1 amended: for every success of `parse_text` on input that the
explicit date+time recognizer does not match — i.e. every other local
recognizer, the local no-signal default and the remote fallback — the
returned datetime, read as a civil timestamp in the fixed timezone, is
strictly later than `now`.  (The explicit date+time recognizer returns
the parsed instant verbatim, which may lie in the past.)  The
hypothesis `now.y ≤ 9000` keeps the model away from the year-9999
corner where the Python `datetime` library itself raises
`OverflowError` — there `parse_text` returns an error dict, never a
success, so the claim is unaffected. -/
theorem C1_future_invariant (now : DT) (key : Bool) (remote : Remote)
    (text : Str) (uts : Option (List (Str × Str))) (task dstr orig : Str)
    (hv : now.valid = true) (hy : now.y ≤ 9000)
    (hne : try_parse_explicit_datetime now text = none)
    (h : parse_text now key remote text uts = .ok task dstr orig) :
    ∃ dtv, parseYmdHms dstr = some dtv ∧ now.key < dtv.key := by
  unfold parse_text at h
  dsimp only at h
  cases hl : localResolve now text (get_times uts) with
  | some r =>
    rw [hl] at h
    dsimp only at h
    obtain ⟨hval, hkey⟩ := localResolve_future hv hy hne hl
    simp only [ParseResult.ok.injEq] at h
    obtain ⟨-, hd, -⟩ := h
    subst hd
    exact ⟨r.2, parseYmdHms_fmtDT hval, hkey⟩
  | none =>
    rw [hl] at h
    dsimp only at h
    cases hr : parse_with_openai now key remote text (get_times uts) with
    | ok pr =>
      rw [hr] at h
      dsimp only at h
      cases pr with
      | ok t2 d2 o2 =>
        simp only [ParseResult.ok.injEq] at h
        obtain ⟨ht, hd, ho⟩ := h
        subst ht
        subst hd
        subst ho
        exact parse_with_openai_future hv hy hr
      | err m => exact absurd h (by simp)
    | error e =>
      rw [hr] at h
      dsimp only at h
      exact absurd h (by simp)

/-- C1 witness: the no-signal default path at the reference instant
produces a strictly future timestamp. -/
theorem C1_witness :
    ∃ dtv, parseYmdHms (S "2026-01-15 20:00:00") = some dtv ∧
      (⟨2026, 1, 15, 12, 0, 0⟩ : DT).key < dtv.key :=
  C1_future_invariant ⟨2026, 1, 15, 12, 0, 0⟩ false (.exn (S "x"))
    (S "купить молоко") none (S "купить молоко") (S "2026-01-15 20:00:00")
    (S "купить молоко") (by decide) (by decide) (by decide) (by decide)

/-- C5: in each of the explicit-time, space-separated-time and
spoken-word-time recognizers, an extracted hour strictly below 12
accompanied by an evening/night keyword is shifted into the PM half
(+12), and the candidate instant is advanced by one day exactly when it
is not strictly future (`futureCorrect`). -/
theorem C5_pm_shift :
    (∀ (now : DT) (text dflt : Str) (ms mlen hh mm : Nat) (r : Str × DT),
      searchStr timeHHMMAt (stripPy text) = some (ms, mlen, hh, mm) →
      hh < 12 → hasEveningWord (lowerStr (stripPy text)) = true →
      try_parse_explicit_time now text dflt = some r →
      r.2.hh = hh + 12 ∧
      r.2 = futureCorrect now
        ((dayOffsetBase now (lowerStr (stripPy text))).atTime (hh + 12) mm)) ∧
    (∀ (now : DT) (text : Str) (ms mlen hh mm : Nat) (r : Str × DT),
      searchStr spaceTimeAt (lowerStr (stripPy text)) = some (ms, mlen, hh, mm) →
      hh < 12 → hasEveningWord (lowerStr (stripPy text)) = true →
      try_parse_space_time now text = some r →
      r.2.hh = hh + 12 ∧
      r.2 = futureCorrect now
        ((dayOffsetBase now (lowerStr (stripPy text))).atTime (hh + 12) mm)) ∧
    (∀ (now : DT) (text : Str) (ms mlen : Nat) (hw : Str) (mw : Option Str)
        (hh mm : Nat) (r : Str × DT),
      searchStr spokenTimeAt (lowerStr (stripPy text)) = some (ms, mlen, hw, mw) →
      pyLookup hourWordsMap hw = some hh →
      (match mw with
       | none => some 0
       | some w => pyLookup minuteWordsMap w) = some mm →
      hh < 12 → hasEveningWord (lowerStr (stripPy text)) = true →
      try_parse_spoken_time now text = some r →
      r.2.hh = hh + 12 ∧
      r.2 = futureCorrect now
        ((dayOffsetBase now (lowerStr (stripPy text))).atTime (hh + 12) mm)) := by
  refine ⟨?_, ?_, ?_⟩
  · intro now text dflt ms mlen hh mm r h1 h2 h3 h4
    unfold try_parse_explicit_time at h4
    dsimp only at h4
    rw [h1] at h4
    dsimp only at h4
    split at h4
    case isTrue => exact absurd h4 (by simp)
    case isFalse =>
      split at h4
      case isFalse => exact absurd h4 (by simp)
      case isTrue =>
        have hc : (decide (hh < 12) && hasEveningWord (lowerStr (stripPy text))) = true := by
          simp [h2, h3]
        rw [if_pos hc] at h4
        simp only [Option.some.injEq] at h4
        subst h4
        exact ⟨futureCorrect_hh _ _ _ _, rfl⟩
  · intro now text ms mlen hh mm r h1 h2 h3 h4
    unfold try_parse_space_time at h4
    dsimp only at h4
    rw [h1] at h4
    dsimp only at h4
    split at h4
    case isFalse => exact absurd h4 (by simp)
    case isTrue =>
      have hc : (decide (hh < 12) && hasEveningWord (lowerStr (stripPy text))) = true := by
        simp [h2, h3]
      rw [if_pos hc] at h4
      simp only [Option.some.injEq] at h4
      subst h4
      exact ⟨futureCorrect_hh _ _ _ _, rfl⟩
  · intro now text ms mlen hw mw hh mm r h1 hlk hmk h2 h3 h4
    unfold try_parse_spoken_time at h4
    dsimp only at h4
    rw [h1] at h4
    dsimp only at h4
    rw [hlk] at h4
    dsimp only at h4
    rw [hmk] at h4
    dsimp only at h4
    have hc : (decide (hh < 12) && hasEveningWord (lowerStr (stripPy text))) = true := by
      simp [h2, h3]
    rw [if_pos hc] at h4
    simp only [Option.some.injEq] at h4
    subst h4
    exact ⟨futureCorrect_hh _ _ _ _, rfl⟩

/-- C5 witness: `"встреча в 9:30 вечером"`, `"в 9 30 вечера купить
хлеб"` and `"в девять тридцать вечером позвонить маме"` all resolve to
hour 21 = 9 + 12 at the reference instant. -/
theorem C5_witness :
    ((S "встреча", (⟨2026, 1, 15, 21, 30, 0⟩ : DT)) : Str × DT).2.hh = 9 + 12 ∧
    ((S "купить хлеб", (⟨2026, 1, 15, 21, 30, 0⟩ : DT)) : Str × DT).2.hh = 9 + 12 ∧
    ((S "позвонить маме", (⟨2026, 1, 15, 21, 30, 0⟩ : DT)) : Str × DT).2.hh = 9 + 12 :=
  ⟨(C5_pm_shift.1 ⟨2026, 1, 15, 12, 0, 0⟩ (S "встреча в 9:30 вечером") (S "20:00")
      10 4 9 30 (S "встреча", ⟨2026, 1, 15, 21, 30, 0⟩)
      (by decide) (by decide) (by decide) (by decide)).1,
   (C5_pm_shift.2.1 ⟨2026, 1, 15, 12, 0, 0⟩ (S "в 9 30 вечера купить хлеб")
      0 6 9 30 (S "купить хлеб", ⟨2026, 1, 15, 21, 30, 0⟩)
      (by decide) (by decide) (by decide) (by decide)).1,
   (C5_pm_shift.2.2 ⟨2026, 1, 15, 12, 0, 0⟩
      (S "в девять тридцать вечером позвонить маме")
      0 17 (S "девять") (some (S "тридцать")) 9 30
      (S "позвонить маме", ⟨2026, 1, 15, 21, 30, 0⟩)
      (by decide) (by decide) (by decide) (by decide) (by decide) (by decide)).1⟩

/-- C6: the remote-fallback repair policy.  With the API key set and a
truthy task field: a null/absent datetime is replaced by the
future-corrected default; a datetime that parses but is not strictly
future has its year advanced by one when the text matches a
day+month-without-year pattern (kept only if that makes it future),
and otherwise the future-corrected default is substituted.  The last
conjunct records that the default is today at the default time,
advanced one day when not strictly future. -/
theorem C6_remote_repair_policy (now : DT) (taskF : Option Str)
    (origF : Option Str) (text : Str) (times : Times)
    (htask : truthyStr taskF = true) :
    (parse_with_openai now true (.dict taskF none origF) text times =
      .ok (.ok (taskF.getD []) (fmtDT (default_datetime now times.dflt))
        (origF.getD text))) ∧
    (∀ ds, lowerStr (stripPy ds) = S "null" →
      parse_with_openai now true (.dict taskF (some ds) origF) text times =
        .ok (.ok (taskF.getD []) (fmtDT (default_datetime now times.dflt))
          (origF.getD text))) ∧
    (∀ ds dtv, lowerStr (stripPy ds) ≠ S "null" → parseYmdHms ds = some dtv →
      ¬ now.key < dtv.key → is_day_month_pattern text = true →
      validYMD (dtv.y + 1) dtv.mo dtv.d = true →
      now.key < ({dtv with y := dtv.y + 1} : DT).key →
      parse_with_openai now true (.dict taskF (some ds) origF) text times =
        .ok (.ok (taskF.getD []) (fmtDT ({dtv with y := dtv.y + 1} : DT))
          (origF.getD text))) ∧
    (∀ ds dtv, lowerStr (stripPy ds) ≠ S "null" → parseYmdHms ds = some dtv →
      ¬ now.key < dtv.key → is_day_month_pattern text = true →
      validYMD (dtv.y + 1) dtv.mo dtv.d = true →
      ¬ now.key < ({dtv with y := dtv.y + 1} : DT).key →
      parse_with_openai now true (.dict taskF (some ds) origF) text times =
        .ok (.ok (taskF.getD []) (fmtDT (default_datetime now times.dflt))
          (origF.getD text))) ∧
    (∀ ds dtv, lowerStr (stripPy ds) ≠ S "null" → parseYmdHms ds = some dtv →
      ¬ now.key < dtv.key → is_day_month_pattern text = true →
      validYMD (dtv.y + 1) dtv.mo dtv.d = false →
      parse_with_openai now true (.dict taskF (some ds) origF) text times =
        .ok (.ok (taskF.getD []) (fmtDT (default_datetime now times.dflt))
          (origF.getD text))) ∧
    (∀ ds dtv, lowerStr (stripPy ds) ≠ S "null" → parseYmdHms ds = some dtv →
      ¬ now.key < dtv.key → is_day_month_pattern text = false →
      parse_with_openai now true (.dict taskF (some ds) origF) text times =
        .ok (.ok (taskF.getD []) (fmtDT (default_datetime now times.dflt))
          (origF.getD text))) ∧
    (default_datetime now times.dflt =
      futureCorrect now (now.atTime (hhmm_of times.dflt).1 (hhmm_of times.dflt).2)) := by
  refine ⟨?_, ?_, ?_, ?_, ?_, ?_, rfl⟩
  · unfold parse_with_openai
    rw [if_neg (by decide)]
    dsimp only
    rw [htask]
    rw [if_neg (by decide)]
  · intro ds hnull
    unfold parse_with_openai
    rw [if_neg (by decide)]
    dsimp only
    rw [htask]
    rw [if_neg (by decide)]
    rw [if_pos hnull]
  · intro ds dtv hnn hp hnf hpat hval2 hfut2
    unfold parse_with_openai
    rw [if_neg (by decide)]
    dsimp only
    rw [htask]
    rw [if_neg (by decide)]
    rw [if_neg hnn]
    unfold fix_past_datetime
    rw [hp]
    dsimp only
    rw [if_neg hnf, if_pos hpat, if_pos hval2]
    rw [if_pos hfut2]
  · intro ds dtv hnn hp hnf hpat hval2 hnf2
    unfold parse_with_openai
    rw [if_neg (by decide)]
    dsimp only
    rw [htask]
    rw [if_neg (by decide)]
    rw [if_neg hnn]
    unfold fix_past_datetime
    rw [hp]
    dsimp only
    rw [if_neg hnf, if_pos hpat, if_pos hval2]
    rw [if_neg hnf2]
  · intro ds dtv hnn hp hnf hpat hval2
    unfold parse_with_openai
    rw [if_neg (by decide)]
    dsimp only
    rw [htask]
    rw [if_neg (by decide)]
    rw [if_neg hnn]
    unfold fix_past_datetime
    rw [hp]
    dsimp only
    rw [if_neg hnf, if_pos hpat,
      if_neg (by rw [hval2]; exact Bool.false_ne_true)]
  · intro ds dtv hnn hp hnf hpat
    unfold parse_with_openai
    rw [if_neg (by decide)]
    dsimp only
    rw [htask]
    rw [if_neg (by decide)]
    rw [if_neg hnn]
    unfold fix_past_datetime
    rw [hp]
    dsimp only
    rw [if_neg hnf, if_neg (by rw [hpat]; exact Bool.false_ne_true)]

/-- C6 witness: a model-returned past datetime `"2025-06-01 10:00:00"`
for the day+month text `"1 июня"` is repaired by advancing the year. -/
theorem C6_witness :
    parse_with_openai ⟨2026, 1, 15, 12, 0, 0⟩ true
        (.dict (some (S "задача")) (some (S "2025-06-01 10:00:00")) none)
        (S "1 июня") (get_times none) =
      .ok (.ok (S "задача") (fmtDT ({(⟨2025, 6, 1, 10, 0, 0⟩ : DT) with y := 2025 + 1}))
        (S "1 июня")) :=
  (C6_remote_repair_policy ⟨2026, 1, 15, 12, 0, 0⟩ (some (S "задача")) none
      (S "1 июня") (get_times none) (by decide)).2.2.1
    (S "2025-06-01 10:00:00") ⟨2025, 6, 1, 10, 0, 0⟩
    (by decide) (by decide) (by decide) (by decide) (by decide) (by decide)

/-- C8: day-part settings normalization is total and always yields four
valid `HH:MM` values; both key naming conventions are accepted for each
of the four fields, with the plain key taking precedence; missing keys
and malformed values degrade to the built-in defaults
`09:00 / 14:00 / 20:00 / 20:00`. -/
theorem C8_settings_normalization :
    (∀ ut, validHHMM (get_times ut).morning = true ∧
      validHHMM (get_times ut).day = true ∧
      validHHMM (get_times ut).evening = true ∧
      validHHMM (get_times ut).dflt = true) ∧
    get_times none = ⟨S "09:00", S "14:00", S "20:00", S "20:00"⟩ ∧
    (∀ ut v, pyGetStr ut (S "morning") = some v →
      (get_times (some ut)).morning = normalize_hhmm v (S "09:00")) ∧
    (∀ ut v, pyGetStr ut (S "morning") = none →
      pyGetStr ut (S "morning_time") = some v →
      (get_times (some ut)).morning = normalize_hhmm v (S "09:00")) ∧
    (∀ ut, pyGetStr ut (S "morning") = none →
      pyGetStr ut (S "morning_time") = none →
      (get_times (some ut)).morning = S "09:00") ∧
    (∀ ut v, pyGetStr ut (S "day") = some v →
      (get_times (some ut)).day = normalize_hhmm v (S "14:00")) ∧
    (∀ ut v, pyGetStr ut (S "day") = none →
      pyGetStr ut (S "day_time") = some v →
      (get_times (some ut)).day = normalize_hhmm v (S "14:00")) ∧
    (∀ ut, pyGetStr ut (S "day") = none →
      pyGetStr ut (S "day_time") = none →
      (get_times (some ut)).day = S "14:00") ∧
    (∀ ut v, pyGetStr ut (S "evening") = some v →
      (get_times (some ut)).evening = normalize_hhmm v (S "20:00")) ∧
    (∀ ut v, pyGetStr ut (S "evening") = none →
      pyGetStr ut (S "evening_time") = some v →
      (get_times (some ut)).evening = normalize_hhmm v (S "20:00")) ∧
    (∀ ut, pyGetStr ut (S "evening") = none →
      pyGetStr ut (S "evening_time") = none →
      (get_times (some ut)).evening = S "20:00") ∧
    (∀ ut v, pyGetStr ut (S "default") = some v →
      (get_times (some ut)).dflt = normalize_hhmm v (S "20:00")) ∧
    (∀ ut v, pyGetStr ut (S "default") = none →
      pyGetStr ut (S "default_time") = some v →
      (get_times (some ut)).dflt = normalize_hhmm v (S "20:00")) ∧
    (∀ ut, pyGetStr ut (S "default") = none →
      pyGetStr ut (S "default_time") = none →
      (get_times (some ut)).dflt = S "20:00") ∧
    (∀ v fb, matchHHcolonMM (stripPy v) = none → matchH1or2sepMM (stripPy v) = none →
      normalize_hhmm v fb = fb) := by
  refine ⟨get_times_valid, by decide, ?_, ?_, ?_, ?_, ?_, ?_, ?_, ?_, ?_, ?_, ?_, ?_, ?_⟩
  · intro ut v hm
    unfold get_times
    dsimp only
    simp only [hm, Option.getD_some]
  · intro ut v hm hmt
    unfold get_times
    dsimp only
    simp only [hm, hmt, Option.getD_some, Option.getD_none]
  · intro ut hm hmt
    unfold get_times
    dsimp only
    simp only [hm, hmt, Option.getD_some, Option.getD_none]
    decide
  · intro ut v hm
    unfold get_times
    dsimp only
    simp only [hm, Option.getD_some]
  · intro ut v hm hmt
    unfold get_times
    dsimp only
    simp only [hm, hmt, Option.getD_some, Option.getD_none]
  · intro ut hm hmt
    unfold get_times
    dsimp only
    simp only [hm, hmt, Option.getD_some, Option.getD_none]
    decide
  · intro ut v hm
    unfold get_times
    dsimp only
    simp only [hm, Option.getD_some]
  · intro ut v hm hmt
    unfold get_times
    dsimp only
    simp only [hm, hmt, Option.getD_some, Option.getD_none]
  · intro ut hm hmt
    unfold get_times
    dsimp only
    simp only [hm, hmt, Option.getD_some, Option.getD_none]
    decide
  · intro ut v hm
    unfold get_times
    dsimp only
    simp only [hm, Option.getD_some]
  · intro ut v hm hmt
    unfold get_times
    dsimp only
    simp only [hm, hmt, Option.getD_some, Option.getD_none]
  · intro ut hm hmt
    unfold get_times
    dsimp only
    simp only [hm, hmt, Option.getD_some, Option.getD_none]
    decide
  · intro v fb h1 h2
    unfold normalize_hhmm
    split
    · rfl
    · dsimp only
      rw [h1]
      dsimp only
      rw [h2]

/-- C8 witness: the `morning_time` convention is accepted, and a
malformed value degrades to the default. -/
theorem C8_witness :
    (get_times (some [(S "morning_time", S "7:30")])).morning =
      normalize_hhmm (S "7:30") (S "09:00") ∧
    normalize_hhmm (S "abc") (S "09:00") = S "09:00" ∧
    validHHMM (get_times (some [(S "evening", S "99:99")])).evening = true :=
  ⟨C8_settings_normalization.2.2.2.1 [(S "morning_time", S "7:30")] (S "7:30")
      (by decide) (by decide),
    C8_settings_normalization.2.2.2.2.2.2.2.2.2.2.2.2.2.2 (S "abc") (S "09:00")
      (by decide) (by decide),
    (C8_settings_normalization.1 (some [(S "evening", S "99:99")])).2.2.1⟩

/-- C3: neither `parse_text` nor `split_into_reminders` lets a failure
escape: every call returns one of the two result-dict shapes, and the
failure modes of the remote path — a raised exception (network error,
JSON decode failure, non-dict payload), a missing API key, a missing
task field, a non-list items field — surface as `{error: message}` /
`{items: [], error: message}`. -/
theorem C3_no_exception_escape (now : DT) (key : Bool) (remote : Remote)
    (sremote : SplitRemote) (text : Str) (uts : Option (List (Str × Str))) :
    ((∃ t d o, parse_text now key remote text uts = .ok t d o) ∨
      (∃ m, parse_text now key remote text uts = .err m)) ∧
    (localResolve now text (get_times uts) = none →
      (∀ m, remote = .exn m → key = true →
        parse_text now key remote text uts = .err m) ∧
      (key = false → parse_text now key remote text uts = .err apiKeyMissingMsg) ∧
      (∀ t0 d0 o0, remote = .dict t0 d0 o0 → truthyStr t0 = false → key = true →
        parse_text now key remote text uts = .err noTaskMsg)) ∧
    (simple_split_lines text = [] →
      (∀ m, sremote = .exn m → key = true →
        split_into_reminders text key sremote = ⟨[], some m⟩) ∧
      (key = false →
        split_into_reminders text key sremote = ⟨[], some apiKeyMissingMsg⟩) ∧
      (sremote = .notList → key = true →
        split_into_reminders text key sremote = ⟨[], some badItemsMsg⟩)) := by
  refine ⟨?_, ?_, ?_⟩
  · cases hp : parse_text now key remote text uts with
    | ok t d o => exact Or.inl ⟨t, d, o, rfl⟩
    | err m => exact Or.inr ⟨m, rfl⟩
  · intro hl
    refine ⟨?_, ?_, ?_⟩
    · intro m hrem hkey
      subst hrem
      subst hkey
      unfold parse_text
      dsimp only
      rw [hl]
      dsimp only
      unfold parse_with_openai
      rw [if_neg (by decide)]
    · intro hkey
      subst hkey
      unfold parse_text
      dsimp only
      rw [hl]
      dsimp only
      unfold parse_with_openai
      rw [if_pos (by decide)]
    · intro t0 d0 o0 hrem htr hkey
      subst hrem
      subst hkey
      unfold parse_text
      dsimp only
      rw [hl]
      dsimp only
      unfold parse_with_openai
      rw [if_neg (by decide)]
      dsimp only
      rw [htr]
      rw [if_pos (by decide)]
  · intro hs
    refine ⟨?_, ?_, ?_⟩
    · intro m hrem hkey
      subst hrem
      subst hkey
      unfold split_into_reminders
      rw [hs]
      rw [if_neg (by decide), if_neg (by decide), if_neg (by decide)]
    · intro hkey
      subst hkey
      unfold split_into_reminders
      rw [hs]
      rw [if_neg (by decide), if_neg (by decide), if_pos (by decide)]
    · intro hrem hkey
      subst hrem
      subst hkey
      unfold split_into_reminders
      rw [hs]
      rw [if_neg (by decide), if_neg (by decide), if_neg (by decide)]

/-- C3 witness: a raised remote exception and a missing API key surface
as error dicts at concrete inputs. -/
theorem C3_witness :
    parse_text ⟨2026, 1, 15, 12, 0, 0⟩ true (.exn (S "boom"))
      (S "через 2 часа купить хлеб") none = .err (S "boom") ∧
    parse_text ⟨2026, 1, 15, 12, 0, 0⟩ false (.exn (S "x"))
      (S "через 2 часа купить хлеб") none = .err apiKeyMissingMsg ∧
    split_into_reminders (S "") true (.exn (S "oops")) = ⟨[], some (S "oops")⟩ :=
  ⟨((C3_no_exception_escape ⟨2026, 1, 15, 12, 0, 0⟩ true (.exn (S "boom"))
        (.notList) (S "через 2 часа купить хлеб") none).2.1 (by decide)).1
      (S "boom") rfl rfl,
    ((C3_no_exception_escape ⟨2026, 1, 15, 12, 0, 0⟩ false (.exn (S "x"))
        (.notList) (S "через 2 часа купить хлеб") none).2.1 (by decide)).2.1 rfl,
    ((C3_no_exception_escape ⟨2026, 1, 15, 12, 0, 0⟩ true (.exn (S "x"))
        (.exn (S "oops")) (S "") none).2.2 (by decide)).1 (S "oops") rfl rfl⟩

end PlannerBot
